import Mathlib

/-!
Verification of the bee-hive simulator core against its specification.

This file gives a shallow embedding, in Lean 4, of the parts of the
simulator that the checked claims are about:

  * the hex-grid utilities of utils.js (getHexNeighbors, distance, the
    PriorityQueue used by the pathfinder);
  * the cell state machine of cell.js (Cell, its add/consume operations,
    Cell.update, feedLarvae, capHoney);
  * the pathfinding layer of hive.js together with the PathfindingCache of
    performance-optimizer.js (findPath, validatePath);
  * the colony coordinator of hive.js (createEmergencyQueen, emergeBee,
    Hive.update input validation, getStats, importData) and the snapshot
    serialisation of persistence.js (PersistenceManager.save).

Modelling conventions, used throughout:

  * JavaScript numbers that the code only ever uses as exact quantities
    (development timers, content amounts, ages, simulation time) are
    modelled as rationals (Rat); grid coordinates are integers.
  * Mutation is modelled by explicit state passing: a method that mutates
    an object and returns a boolean becomes a Lean function returning the
    updated object together with that boolean.
  * Math.random() is modelled by threading an explicit stream of samples
    (a List Rat); an exhausted stream yields 1, which no probability test
    `x < p` (p ≤ 1) accepts, i.e. no random event fires.
  * The JavaScript Map objects (the hive's cell map, the A* bookkeeping
    maps, the pathfinding cache) are modelled by total functions updated
    pointwise, or, where insertion order matters (the FIFO-evicting cache),
    by association lists in insertion order.
  * Loops without a structural decreasing argument (the A* main loop, the
    path reconstruction walk) take explicit fuel.  The JS loops terminate;
    the fuel is chosen generously (comments give the bound), and every
    theorem proved below is a safety property that holds for every fuel.
-/

namespace BeeHive

/-- A hex-grid position: the (q, r) = (column, row) offset coordinates
used as cell keys throughout hive.js. -/
structure Pos where
  q : Int
  r : Int
deriving DecidableEq, Repr

/-- utils.js getHexNeighbors: the six neighbours of an offset-coordinate
cell; the neighbour set depends on the column parity.  JavaScript's
`col % 2 === 0` classifies negative odd columns as odd (remainder -1),
and Lean's Int.emod classifies them identically (remainder 1), so the
parity test below agrees with the source on every integer. -/
def getHexNeighbors (col row : Int) : List Pos :=
  if col % 2 = 0 then
    [ ⟨col + 1, row⟩,       -- right
      ⟨col + 1, row - 1⟩,   -- top-right
      ⟨col, row - 1⟩,       -- top-left
      ⟨col - 1, row - 1⟩,   -- left-top
      ⟨col - 1, row⟩,       -- left
      ⟨col, row + 1⟩ ]      -- bottom
  else
    [ ⟨col + 1, row + 1⟩,   -- right-bottom
      ⟨col + 1, row⟩,       -- right
      ⟨col, row - 1⟩,       -- top
      ⟨col - 1, row⟩,       -- left
      ⟨col - 1, row + 1⟩,   -- left-bottom
      ⟨col, row + 1⟩ ]      -- bottom

/-- utils.js distance: the cube-coordinate hex distance formula
(|dq| + |dq+dr| + |dr|) / 2.  The three-term sum is always even (each
|x| has the parity of x and the terms sum to 2(dq+dr) modulo 2), so the
JavaScript division by 2 is exact and Nat division is faithful. -/
def distance (q1 r1 q2 r2 : Int) : Nat :=
  ((q1 - q2).natAbs + (q1 + r1 - q2 - r2).natAbs + (r1 - r2).natAbs) / 2

/-- utils.js getSeason, keyed by the month observation of a date. -/
inductive Season
  | spring | summer | fall | winter
deriving DecidableEq, Repr

/-- cell.js CellState: the cell state machine's state space. -/
inductive CellState
  | empty
  | egg
  | larvaeHungry
  | larvaeFed
  | cappedBrood
  | nectar
  | honey
  | honeyComplete
  | honeyCapped
  | pollen
  | beeBread
  | water
deriving DecidableEq, Repr

/-- config.json entrance side (grid.entranceSide). -/
inductive Side
  | bottom | top | left | right
deriving DecidableEq, Repr

/-- The slice of the configuration object that the embedded code reads. -/
structure Config where
  columns : Nat
  rows : Nat
  entranceSide : Side
  entranceCount : Nat
  maxBeesPerCell : Nat
  eggDuration : Rat
  larvaeDuration : Rat
  pupaDuration : Rat
  pollenToBeeBreadConversion : Rat
  queenLifespan : Rat
  workerLifespan : Rat
deriving DecidableEq, Repr

/-- cell.js `config.advanced.maxBeesPerCell || 9`: a falsy (zero) setting
falls back to 9. -/
def Config.maxBees (cfg : Config) : Nat :=
  if cfg.maxBeesPerCell = 0 then 9 else cfg.maxBeesPerCell

/-- cell.js Cell.  `occupyingBees` is a transient array of bee objects of
which the embedded code only ever uses the length (isOccupied,
canBeOccupied, isFull), so it is modelled by its length. -/
structure Cell where
  q : Int
  r : Int
  state : CellState
  occupyingBeeCount : Nat
  developmentTime : Rat
  maxDevelopmentTime : Rat
  contentAmount : Rat
  isDirty : Bool
  deadBeeCount : Nat
deriving DecidableEq, Repr

/-- The Cell constructor: every field at its initial value. -/
def Cell.mkFresh (q r : Int) : Cell :=
  { q := q, r := r, state := .empty, occupyingBeeCount := 0,
    developmentTime := 0, maxDevelopmentTime := 0, contentAmount := 0,
    isDirty := false, deadBeeCount := 0 }

def Cell.isEmpty (c : Cell) : Bool := c.state = .empty

def Cell.isOccupied (c : Cell) : Bool := 0 < c.occupyingBeeCount

def Cell.isFull (cfg : Config) (c : Cell) : Bool := cfg.maxBees ≤ c.occupyingBeeCount

def Cell.isBrood (c : Cell) : Bool :=
  c.state = .egg || c.state = .larvaeHungry || c.state = .larvaeFed || c.state = .cappedBrood

def Cell.isFood (c : Cell) : Bool :=
  c.state = .nectar || c.state = .honey || c.state = .honeyComplete ||
  c.state = .honeyCapped || c.state = .pollen || c.state = .beeBread || c.state = .water

def Cell.hasDeadBee (c : Cell) : Bool := 0 < c.deadBeeCount

/-- cell.js setEgg.  Returns the boolean result together with the updated
cell. -/
def Cell.setEgg (cfg : Config) (c : Cell) : Bool × Cell :=
  if c.isEmpty && c.deadBeeCount = 0 && !c.isDirty then
    (true, { c with state := .egg, developmentTime := 0,
                    maxDevelopmentTime := cfg.eggDuration })
  else (false, c)

/-- cell.js addNectar.  Note that the empty-cell branch stores the amount
without capping it; only the accumulation branch takes min with 10. -/
def Cell.addNectar (amount : Rat) (c : Cell) : Bool × Cell :=
  if c.isEmpty then
    (true, { c with state := .nectar, contentAmount := amount })
  else if c.state = .nectar && c.contentAmount < 10 then
    (true, { c with contentAmount := min 10 (c.contentAmount + amount) })
  else (false, c)

/-- cell.js addPollen (same shape as addNectar). -/
def Cell.addPollen (amount : Rat) (c : Cell) : Bool × Cell :=
  if c.isEmpty then
    (true, { c with state := .pollen, contentAmount := amount })
  else if c.state = .pollen && c.contentAmount < 10 then
    (true, { c with contentAmount := min 10 (c.contentAmount + amount) })
  else (false, c)

/-- cell.js addWater: cap 5 instead of 10. -/
def Cell.addWater (amount : Rat) (c : Cell) : Bool × Cell :=
  if c.isEmpty then
    (true, { c with state := .water, contentAmount := amount })
  else if c.state = .water && c.contentAmount < 5 then
    (true, { c with contentAmount := min 5 (c.contentAmount + amount) })
  else (false, c)

/-- cell.js consumeHoney: applies to Honey and HoneyComplete, clamps to
Empty at a non-positive remainder. -/
def Cell.consumeHoney (amount : Rat) (c : Cell) : Bool × Cell :=
  if c.state = .honey || c.state = .honeyComplete then
    let rest := c.contentAmount - amount
    if rest ≤ 0 then (true, { c with state := .empty, contentAmount := 0 })
    else (true, { c with contentAmount := rest })
  else (false, c)

/-- cell.js consumePollen: applies to Pollen and BeeBread. -/
def Cell.consumePollen (amount : Rat) (c : Cell) : Bool × Cell :=
  if c.state = .pollen || c.state = .beeBread then
    let rest := c.contentAmount - amount
    if rest ≤ 0 then (true, { c with state := .empty, contentAmount := 0 })
    else (true, { c with contentAmount := rest })
  else (false, c)

/-- cell.js consumeWater. -/
def Cell.consumeWater (amount : Rat) (c : Cell) : Bool × Cell :=
  if c.state = .water then
    let rest := c.contentAmount - amount
    if rest ≤ 0 then (true, { c with state := .empty, contentAmount := 0 })
    else (true, { c with contentAmount := rest })
  else (false, c)

/-- cell.js clean. -/
def Cell.clean (c : Cell) : Bool × Cell :=
  if c.isEmpty && c.isDirty then (true, { c with isDirty := false })
  else (false, c)

/-- cell.js capHoney: the only transition into HoneyCapped. -/
def Cell.capHoney (c : Cell) : Bool × Cell :=
  if c.state = .honeyComplete then (true, { c with state := .honeyCapped })
  else (false, c)

/-- cell.js removeDeadBee. -/
def Cell.removeDeadBee (c : Cell) : Bool × Cell :=
  if 0 < c.deadBeeCount then (true, { c with deadBeeCount := c.deadBeeCount - 1 })
  else (false, c)

/-- cell.js feedLarvae: LarvaeHungry becomes LarvaeFed. -/
def Cell.feedLarvae (c : Cell) : Bool × Cell :=
  if c.state = .larvaeHungry then (true, { c with state := .larvaeFed })
  else (false, c)

/-- One sample from the modelled Math.random() stream: the head of the
list, or 1 when the stream is exhausted (1 fails every `< p` test with
p ≤ 1, i.e. no random event fires). -/
def nextRand (rnd : List Rat) : Rat × List Rat :=
  (rnd.headD 1, rnd.tail)

/-- cell.js Cell.update.  Returns the updated cell, whether the update
signalled 'emerge', and the remaining randomness stream.  The structure
mirrors the source: the brood branch (with the CappedBrood case returning
'emerge' immediately, before the food-decay block), then the
nectar/honey/pollen conversion chain, then the stochastic food decay. -/
def Cell.update (cfg : Config) (deltaTime : Rat) (c : Cell) (rnd : List Rat) :
    Cell × Bool × List Rat :=
  if c.isBrood then
    -- LARVAE_HUNGRY progress at half speed; other brood at full speed.
    let c : Cell :=
      if c.state = .larvaeHungry then
        { c with developmentTime := c.developmentTime + deltaTime * (1/2) }
      else
        { c with developmentTime := c.developmentTime + deltaTime }
    if c.maxDevelopmentTime ≤ c.developmentTime then
      let c : Cell := { c with developmentTime := 0 }
      match c.state with
      | .egg =>
          decayFood deltaTime
            { c with state := .larvaeHungry,
                     maxDevelopmentTime := cfg.larvaeDuration } rnd
      | .larvaeHungry =>
          decayFood deltaTime
            { c with state := .cappedBrood,
                     maxDevelopmentTime := cfg.pupaDuration } rnd
      | .larvaeFed =>
          decayFood deltaTime
            { c with state := .cappedBrood,
                     maxDevelopmentTime := cfg.pupaDuration } rnd
      | .cappedBrood => (c, true, rnd)   -- return 'emerge'
      | _ => decayFood deltaTime c rnd  -- unreachable: c.isBrood holds
    else
      decayFood deltaTime c rnd
  else if c.state = .nectar then
    let (x, rnd) := nextRand rnd
    let c : Cell := if x < 1/100 then { c with state := .honey } else c
    decayFood deltaTime c rnd
  else if c.state = .honey && 8 ≤ c.contentAmount then
    decayFood deltaTime { c with state := .honeyComplete } rnd
  else if c.state = .pollen then
    let (x, rnd) := nextRand rnd
    let c : Cell :=
      if x < 5/1000 then
        { c with state := .beeBread,
                 contentAmount :=
                   (((c.contentAmount * cfg.pollenToBeeBreadConversion).floor : Int) : Rat) }
      else c
    decayFood deltaTime c rnd
  else
    decayFood deltaTime c rnd
where
  /-- The trailing food-decay block of Cell.update: stochastic consumption
  of stored food, clamping to Empty and possibly marking the cell dirty. -/
  decayFood (deltaTime : Rat) (c : Cell) (rnd : List Rat) :
      Cell × Bool × List Rat :=
    if c.isFood && 0 < c.contentAmount then
      let consumptionRate : Rat := if c.state = .water then 1/1000 else 5/100000
      let (x, rnd) := nextRand rnd
      if x < consumptionRate * deltaTime then
        let c : Cell := { c with contentAmount := c.contentAmount - 1/5 }
        if c.contentAmount ≤ 0 then
          let c : Cell := { c with state := .empty, contentAmount := 0 }
          let (y, rnd) := nextRand rnd
          if y < 3/10 then ({ c with isDirty := true }, false, rnd)
          else (c, false, rnd)
        else (c, false, rnd)
      else (c, false, rnd)
    else (c, false, rnd)

/-- The operation alphabet of the content-accounting claim: the add and
consume operations of cell.js, each carrying its amount argument. -/
inductive CellOp
  | addNectar (amount : Rat)
  | addPollen (amount : Rat)
  | addWater (amount : Rat)
  | consumeHoney (amount : Rat)
  | consumePollen (amount : Rat)
  | consumeWater (amount : Rat)
deriving DecidableEq, Repr

/-- Run one add/consume operation, keeping only the updated cell. -/
def applyOp (op : CellOp) (c : Cell) : Cell :=
  match op with
  | .addNectar a => (Cell.addNectar a c).2
  | .addPollen a => (Cell.addPollen a c).2
  | .addWater a => (Cell.addWater a c).2
  | .consumeHoney a => (Cell.consumeHoney a c).2
  | .consumePollen a => (Cell.consumePollen a c).2
  | .consumeWater a => (Cell.consumeWater a c).2

/-- Run a sequence of add/consume operations left to right. -/
def applyOps (ops : List CellOp) (c : Cell) : Cell :=
  ops.foldl (fun c op => applyOp op c) c

def CellOp.isAdd : CellOp → Bool
  | .addNectar _ | .addPollen _ | .addWater _ => true
  | _ => false

/-- The amounts the simulator actually passes: positive, and at most the
type-specific maximum (bee.js passes 3 to 5 for nectar/pollen, 1 for
water, 0.5 or the default 1 for the consume operations). -/
def CellOp.validAmount : CellOp → Prop
  | .addNectar a | .addPollen a => 0 < a ∧ a ≤ 10
  | .addWater a => 0 < a ∧ a ≤ 5
  | .consumeHoney a | .consumePollen a | .consumeWater a => 0 < a

/-- The content-accounting invariant of the specification: non-negative
content, zero content when Empty, and the type-specific maxima. -/
def contentInv (c : Cell) : Prop :=
  0 ≤ c.contentAmount ∧
  (c.state = .empty → c.contentAmount = 0) ∧
  (c.state = .nectar ∨ c.state = .honey ∨ c.state = .honeyComplete ∨
     c.state = .honeyCapped ∨ c.state = .pollen ∨ c.state = .beeBread →
     c.contentAmount ≤ 10) ∧
  (c.state = .water → c.contentAmount ≤ 5)

/-- bee.js BeeType. -/
inductive BeeType
  | queen | worker
deriving DecidableEq, Repr

/-- bee.js BeeTask. -/
inductive BeeTask
  | idle | foraging | nursing | feedingQueen | storingFood | returning | cleaning
  | cappingHoney | undertaking | attendingQueen | waterCollection
  | temperatureRegulation | collectingFood
deriving DecidableEq, Repr

/-- bee.js Bee, restricted to the fields the embedded hive.js and
persistence.js code reads or writes (position, movement arrival, age and
lifespan, task, the five cargo flags, outside tracking, and the
queen-specific egg statistics); the task-engine-internal fields
(timers, cached paths, target cells) drive no embedded code path. -/
structure Bee where
  type : BeeType
  q : Int
  r : Int
  targetQ : Int
  targetR : Int
  moveProgress : Rat
  age : Rat
  maxAge : Rat
  task : BeeTask
  hasNectar : Bool
  hasPollen : Bool
  hasWater : Bool
  hasDeadBee : Bool
  hasFood : Bool
  isOutsideHive : Bool
  simulationTime : Rat
  eggsLaidTotal : Nat
  eggsLaidHistory : List Rat
deriving DecidableEq, Repr

/-- The Bee constructor of bee.js.  Modelled from the spec: `Bee.reset`,
which hive.js calls through the object pool (beePool.acquire().reset(...)),
is not among the provided sources; per the specification's object-pool
design (an arena with explicit acquire/reset/release replacing
construction), reset re-initialises the pooled bee exactly as the
constructor does, which is what this definition builds. -/
def mkBee (cfg : Config) (type : BeeType) (q r : Int) : Bee :=
  { type := type, q := q, r := r, targetQ := q, targetR := r, moveProgress := 1,
    age := 0,
    maxAge := if type = .queen then cfg.queenLifespan else cfg.workerLifespan,
    task := .idle, hasNectar := false, hasPollen := false, hasWater := false,
    hasDeadBee := false, hasFood := false, isOutsideHive := false,
    simulationTime := 0, eggsLaidTotal := 0, eggsLaidHistory := [] }

/-- A JavaScript number as the embedded validation code observes it. -/
inductive JsNum
  | nan
  | posInf
  | negInf
  | num (val : Rat)
deriving DecidableEq, Repr

/-- JavaScript truthiness of a number: 0 and NaN are falsy. -/
def JsNum.falsy : JsNum → Bool
  | .nan => true
  | .num v => v = 0
  | _ => false

def JsNum.isFiniteNum : JsNum → Bool
  | .num _ => true
  | _ => false

/-- JavaScript `x <= 0`: false on NaN, true on -Infinity. -/
def JsNum.le0 : JsNum → Bool
  | .nan => false
  | .posInf => false
  | .negInf => true
  | .num v => v ≤ 0

/-- JavaScript strict inequality `!==` on numbers: NaN differs from
everything, itself included. -/
def JsNum.strictNeq : JsNum → JsNum → Bool
  | .nan, _ => true
  | _, .nan => true
  | a, b => decide (a ≠ b)

/-- A date value as hive.js observes it: null/undefined/not a Date object
(rejected by the update guard), an Invalid Date instance (a Date object
holding a NaN timestamp, which passes the instanceof check and yields NaN
from every getter), or a valid date with its observed calendar fields. -/
inductive JsDate
  | nullish
  | invalid
  | valid (day month hour : Int)
deriving DecidableEq, Repr

/-- Date#getDate as the rollover check calls it. -/
def JsDate.getDateField : JsDate → JsNum
  | .valid d _ _ => .num d
  | _ => .nan

def JsDate.getMonth : JsDate → JsNum
  | .valid _ m _ => .num m
  | _ => .nan

def JsDate.getHours : JsDate → JsNum
  | .valid _ _ h => .num h
  | _ => .nan

/-- utils.js getSeason; with NaN month every comparison is false in JS and
the function falls through to winter. -/
def getSeason (date : JsDate) : Season :=
  match date.getMonth with
  | .num m =>
      if 2 ≤ m ∧ m ≤ 4 then .spring
      else if 5 ≤ m ∧ m ≤ 7 then .summer
      else if 8 ≤ m ∧ m ≤ 10 then .fall
      else .winter
  | _ => .winter

/-- The per-day counters of hive.js (currentDaySummary). -/
structure DaySummary where
  date : JsDate
  eggsLaid : Nat
  beesHatched : Nat
  beesDied : Nat
  nectarCollected : Rat
  pollenCollected : Rat
  waterCollected : Rat
deriving DecidableEq, Repr

/-- A freshly reset daily summary. -/
def DaySummary.fresh (date : JsDate) : DaySummary :=
  { date := date, eggsLaid := 0, beesHatched := 0, beesDied := 0,
    nectarCollected := 0, pollenCollected := 0, waterCollected := 0 }

/-- initializeCells: the row-major enumeration of the grid keys (the outer
loop runs over rows, the inner over columns), which is the JS Map's
iteration order for cells.values(). -/
def gridPositions (cfg : Config) : List Pos :=
  (List.range cfg.rows).flatMap fun row =>
    (List.range cfg.columns).map fun col => ⟨Int.ofNat col, Int.ofNat row⟩

/-- initializeEntrances: the entrance cells as a pure function of the
configuration (hive.js computes them once at construction and importData
recomputes them identically; Math.floor on the possibly negative
(size - count)/2 is floor division). -/
def entranceCells (cfg : Config) : List Pos :=
  match cfg.entranceSide with
  | .bottom =>
      (List.range cfg.entranceCount).map fun i =>
        ⟨Int.fdiv ((cfg.columns : Int) - (cfg.entranceCount : Int)) 2 + (i : Int),
         (cfg.rows : Int) - 1⟩
  | .top =>
      (List.range cfg.entranceCount).map fun i =>
        ⟨Int.fdiv ((cfg.columns : Int) - (cfg.entranceCount : Int)) 2 + (i : Int), 0⟩
  | .left =>
      (List.range cfg.entranceCount).map fun i =>
        ⟨0, Int.fdiv ((cfg.rows : Int) - (cfg.entranceCount : Int)) 2 + (i : Int)⟩
  | .right =>
      (List.range cfg.entranceCount).map fun i =>
        ⟨(cfg.columns : Int) - 1,
         Int.fdiv ((cfg.rows : Int) - (cfg.entranceCount : Int)) 2 + (i : Int)⟩

/-- hive.js isEntranceCell. -/
def isEntranceCell (cfg : Config) (q r : Int) : Bool :=
  (entranceCells cfg).any fun e => e.q = q ∧ e.r = r

/-- The Hive aggregate root.  The cell Map (keyed by the (q,r) string over
the rectangular grid) is modelled by the total function cellAt read
through cellsGet, which is none exactly off the grid; queen is the
distinguished (nullable) reference; the pathfinding cache is an
insertion-ordered association list mirroring the JS Map; the
performance-only members (spatial grids, update batcher, monitor, object
pool counters) carry no simulation-visible state and are not modelled. -/
structure Hive where
  cfg : Config
  cellAt : Pos → Cell
  bees : List Bee
  queen : Option Bee
  emergencyQueenCell : Option Pos
  simulationTime : Rat
  currentDate : JsDate
  temperature : Rat
  foragingHistory : List Rat
  dailySummaries : List DaySummary
  currentDaySummary : DaySummary
  lastSummaryDay : JsNum
  cache : List ((Pos × Pos) × List Pos)

/-- Whether (q,r) is a key of the cell map built by initializeCells. -/
def Hive.inGrid (h : Hive) (p : Pos) : Bool :=
  0 ≤ p.q ∧ p.q < (h.cfg.columns : Int) ∧ 0 ≤ p.r ∧ p.r < (h.cfg.rows : Int)

/-- this.cells.get(key): some cell on the grid, none (undefined) off it. -/
def Hive.cellsGet (h : Hive) (p : Pos) : Option Cell :=
  if h.inGrid p then some (h.cellAt p) else none

/-- Fullness of the cell at a position (false off the grid). -/
def Hive.isFullAt (h : Hive) (p : Pos) : Bool :=
  match h.cellsGet p with
  | some c => c.isFull h.cfg
  | none => false

/-- utils.js PriorityQueue.enqueue: insert before the first element with a
strictly greater priority, else append; dequeue takes the head. -/
def pqEnqueue (items : List (Pos × Nat)) (e : Pos) (priority : Nat) :
    List (Pos × Nat) :=
  match items with
  | [] => [(e, priority)]
  | x :: rest =>
      if priority < x.2 then (e, priority) :: x :: rest
      else x :: pqEnqueue rest e priority

/-- The A* bookkeeping of findPath: the frontier queue and the cameFrom /
costSoFar Maps (modelled as total functions into Option; cameFrom holds
Option Pos because the start key maps to null). -/
structure AStar where
  frontier : List (Pos × Nat)
  cameFrom : Pos → Option (Option Pos)
  costSoFar : Pos → Option Nat

/-- Map.set on a function-modelled JS Map. -/
def mapSet {α : Type} (m : Pos → Option α) (k : Pos) (v : α) : Pos → Option α :=
  fun p => if p = k then some v else m p

/-- The neighbour-relaxation loop of findPath: skip cells missing from the
grid, skip full non-destination cells, cost 3 instead of 1 for occupied
non-destination cells under preferEmpty, relax when the key is new or the
new cost is strictly smaller, enqueueing with the hex-distance heuristic
and recording the parent. -/
def processNeighbors (h : Hive) (endP : Pos) (preferEmpty : Bool) (current : Pos) :
    List Pos → AStar → AStar
  | [], st => st
  | next :: rest, st =>
      let st' :=
        match h.cellsGet next with
        | none => st
        | some nextCell =>
            if nextCell.isFull h.cfg = true ∧ next ≠ endP then st
            else
              let moveCost : Nat :=
                if preferEmpty = true ∧ nextCell.isOccupied = true ∧ next ≠ endP
                then 3 else 1
              let newCost := (st.costSoFar current).getD 0 + moveCost
              let doRelax :=
                match st.costSoFar next with
                | none => true
                | some v => decide (newCost < v)
              if doRelax then
                { frontier := pqEnqueue st.frontier next
                    (newCost + distance next.q next.r endP.q endP.r),
                  cameFrom := mapSet st.cameFrom next (some current),
                  costSoFar := mapSet st.costSoFar next newCost }
              else st
      processNeighbors h endP preferEmpty current rest st'

/-- The A* main loop of findPath with explicit fuel: dequeue, break on the
destination key, else expand the hex neighbours.  The JS while-loop
terminates (each relaxation strictly lowers one key's cost, costs are
positive and bounded), and astarFuel below over-approximates its iteration
count; every theorem proved about the result is a safety property that
holds for every fuel value. -/
def astarLoop (h : Hive) (endP : Pos) (preferEmpty : Bool) :
    Nat → AStar → AStar
  | 0, st => st
  | fuel + 1, st =>
      match st.frontier with
      | [] => st
      | (current, _) :: rest =>
          if current = endP then st
          else
            astarLoop h endP preferEmpty fuel
              (processNeighbors h endP preferEmpty current
                (getHexNeighbors current.q current.r) { st with frontier := rest })

/-- Path reconstruction of findPath: prepend the current node, then follow
cameFrom; a null (or absent) parent ends the walk.  The fuel passed by
findPathFresh is costSoFar(end) + 2, which suffices because costs strictly
decrease along parent links (the same argument shows the JS walk
terminates); an exhausted fuel (impossible from findPathFresh) gives
none. -/
def reconstructPath (cameFrom : Pos → Option (Option Pos)) :
    Nat → Pos → List Pos → Option (List Pos)
  | 0, _, _ => none
  | fuel + 1, current, acc =>
      match cameFrom current with
      | some (some parent) => reconstructPath cameFrom fuel parent (current :: acc)
      | _ => some (current :: acc)

/-- Fuel bound for the A* loop: every assigned cost is at most 3N (a parent
chain of strictly decreasing costs visits distinct keys), so each of the
at most N+1 keys is relaxed at most 3N+2 times, and each loop iteration
consumes one of the at most (N+1)(3N+2)+1 enqueued entries. -/
def astarFuel (h : Hive) : Nat :=
  let n := h.cfg.columns * h.cfg.rows
  (n + 1) * (3 * n + 2) + 2

/-- The A* computation of hive.js findPath after the cache check: the two
grid-membership checks, the search loop from the start enqueued at
priority 0 with cameFrom(start) = null and costSoFar(start) = 0, the
cameFrom(end) presence check, and the reconstruction walk. -/
def findPathFresh (h : Hive) (start endP : Pos) (preferEmpty : Bool) :
    Option (List Pos) :=
  if (h.cellsGet start).isNone ∨ (h.cellsGet endP).isNone then none
  else
    let st0 : AStar :=
      { frontier := pqEnqueue [] start 0,
        cameFrom := mapSet (fun _ => none) start none,
        costSoFar := mapSet (fun _ => none) start 0 }
    let stF := astarLoop h endP preferEmpty (astarFuel h) st0
    if (stF.cameFrom endP).isNone then none
    else reconstructPath stF.cameFrom ((stF.costSoFar endP).getD 0 + 2) endP []

/-- hive.js validatePath: a non-empty path all of whose cells exist on the
grid, with no full cell except the final one.  (The JS loop compares each
node against the last element by object identity; a freshly computed path
never repeats a coordinate, so the positional reading is equivalent.) -/
def validatePathGo (h : Hive) : List Pos → Bool
  | [] => true
  | [x] => (h.cellsGet x).isSome
  | x :: rest =>
      match h.cellsGet x with
      | none => false
      | some c => !(c.isFull h.cfg) && validatePathGo h rest

def validatePath (h : Hive) (path : List Pos) : Bool :=
  !path.isEmpty && validatePathGo h path

/-- performance-optimizer.js PathfindingCache over an insertion-ordered
association list: get returns the first matching key; set first evicts the
oldest entry when at capacity (the JS Map's keys().next() is the first
inserted key), then updates an existing key in place or appends.  The
hit/miss counters carry no behaviour and are omitted. -/
def cacheGet (cache : List ((Pos × Pos) × List Pos)) (k : Pos × Pos) :
    Option (List Pos) :=
  (cache.find? fun e => e.1 = k).map (·.2)

def cacheSet (cache : List ((Pos × Pos) × List Pos)) (maxSize : Nat)
    (k : Pos × Pos) (v : List Pos) : List ((Pos × Pos) × List Pos) :=
  let cache := if maxSize ≤ cache.length then cache.tail else cache
  if (cache.find? fun e => e.1 = k).isSome then
    cache.map fun e => if e.1 = k then (k, v) else e
  else cache ++ [(k, v)]

/-- The compute-and-cache tail of findPath: a successful A* run stores its
(always non-empty) path in the cache, whose capacity the Hive constructor
sets to 200. -/
def findPathCompute (h : Hive) (start endP : Pos) (preferEmpty : Bool) :
    Option (List Pos) × Hive :=
  match findPathFresh h start endP preferEmpty with
  | none => (none, h)
  | some path =>
      (some path, { h with cache := cacheSet h.cache 200 (start, endP) path })

/-- hive.js findPath: a cache hit is revalidated against the current grid
and served only when still valid; otherwise (stale hit or miss) the path
is recomputed and the cache overwritten.  Returns the path and the hive,
whose cache a recomputation updates. -/
def findPath (h : Hive) (start endP : Pos) (preferEmpty : Bool) :
    Option (List Pos) × Hive :=
  match cacheGet h.cache (start, endP) with
  | some cached =>
      if validatePath h cached = true then (some cached, h)
      else findPathCompute h start endP preferEmpty
  | none => findPathCompute h start endP preferEmpty

/-- Specification predicate: consecutive list elements are hex neighbours. -/
def chainB : List Pos → Bool
  | [] => true
  | [_] => true
  | a :: b :: rest => decide (b ∈ getHexNeighbors a.q a.r) && chainB (b :: rest)

/-- Specification predicate (the well-formedness the claims assert of a
returned path): non-empty, starting at start, ending at the destination,
entirely on the grid, with consecutive elements adjacent per
getHexNeighbors. -/
def wellFormedPath (h : Hive) (start endP : Pos) (path : List Pos) : Prop :=
  path ≠ [] ∧ path.head? = some start ∧ path.getLast? = some endP ∧
  (∀ x ∈ path, (h.cellsGet x).isSome) ∧ chainB path = true

/-- Specification predicate: every cache entry is a well-formed path for
its key.  findPath only ever writes freshly computed paths, so this is an
invariant of every reachable hive (proved preserved below). -/
def cacheWF (h : Hive) : Prop :=
  ∀ e ∈ h.cache, wellFormedPath h e.1.1 e.1.2 e.2

/-- The A* loop invariant: frontier entries were admitted by the
enqueue-side checks and carry assigned costs; cameFrom keys were likewise
admitted, the start (and only the start) maps to null with cost 0, keys
and costs are assigned together, and every recorded parent edge goes from
an expanded (non-full or start) node to one of its hex neighbours with a
strictly smaller cost. -/
structure AStarInv (h : Hive) (start endP : Pos) (st : AStar) : Prop where
  frontierOK : ∀ e ∈ st.frontier, e.1 = start ∨
    ((h.cellsGet e.1).isSome ∧ (h.isFullAt e.1 = false ∨ e.1 = endP))
  frontierCost : ∀ e ∈ st.frontier, (st.costSoFar e.1).isSome
  keyOK : ∀ p, (st.cameFrom p).isSome → p = start ∨
    ((h.cellsGet p).isSome ∧ (h.isFullAt p = false ∨ p = endP))
  startNull : st.cameFrom start = some none
  nullOnlyStart : ∀ p, st.cameFrom p = some none → p = start
  sync : ∀ p, (st.cameFrom p).isSome ↔ (st.costSoFar p).isSome
  costStart : st.costSoFar start = some 0
  parentProp : ∀ p q, st.cameFrom p = some (some q) →
    (q = start ∨ ((h.cellsGet q).isSome ∧ h.isFullAt q = false)) ∧
    (st.cameFrom q).isSome ∧
    p ∈ getHexNeighbors q.q q.r ∧
    ∃ cp cq, st.costSoFar p = some cp ∧ st.costSoFar q = some cq ∧ cq < cp

/-- Grid membership as a function of the configuration (the key set of the
cell map initializeCells builds). -/
def inGridCfg (cfg : Config) (p : Pos) : Bool :=
  0 ≤ p.q ∧ p.q < (cfg.columns : Int) ∧ 0 ≤ p.r ∧ p.r < (cfg.rows : Int)

/-- hive.js cells.values() iteration: the cells in grid insertion order. -/
def Hive.gridCells (h : Hive) : List Cell :=
  (gridPositions h.cfg).map h.cellAt

/-- The young-larva filter of createEmergencyQueen: fed or hungry larvae
less than half-way through development. -/
def isYoungLarva (c : Cell) : Bool :=
  (c.state = .larvaeFed || c.state = .larvaeHungry) &&
  decide (c.developmentTime < c.maxDevelopmentTime * (1/2))

/-- The sort key of createEmergencyQueen: the squared Euclidean distance to
the grid centre (columns/2, rows/2), scaled by 4 to stay integral.  The JS
comparator returns distA - distB over the Euclidean distances; ordering by
it coincides with ordering by this key (squaring is strictly monotone on
non-negatives, scaling by 4 clears the half-integer centre). -/
def centerDistKey (cfg : Config) (c : Cell) : Int :=
  (2 * c.q - (cfg.columns : Int)) ^ 2 + (2 * c.r - (cfg.rows : Int)) ^ 2

/-- Insertion sort by an integral key, modelling Array.prototype.sort with
the distance comparator; the theorems below use only that the head of the
result minimises the key. -/
def insertByKey (key : Cell → Int) (c : Cell) : List Cell → List Cell
  | [] => [c]
  | d :: rest =>
      if key c < key d then c :: d :: rest else d :: insertByKey key c rest

def sortByKey (key : Cell → Int) : List Cell → List Cell
  | [] => []
  | c :: rest => insertByKey key c (sortByKey key rest)

/-- hive.js createEmergencyQueen: prefer a young larva nearest the grid
centre; with no young larva fall back to eggCells[0], the first egg in
grid iteration order; with neither, leave the hive unchanged. -/
def createEmergencyQueen (h : Hive) : Hive :=
  let larvaeCells := h.gridCells.filter isYoungLarva
  if larvaeCells.isEmpty then
    let eggCells := h.gridCells.filter fun c => c.state = .egg
    match eggCells with
    | [] => h
    | cell :: _ => { h with emergencyQueenCell := some ⟨cell.q, cell.r⟩ }
  else
    match sortByKey (centerDistKey h.cfg) larvaeCells with
    | [] => h   -- unreachable: larvaeCells is non-empty
    | selected :: _ => { h with emergencyQueenCell := some ⟨selected.q, selected.r⟩ }

/-- hive.js emergeBee: on the emergency-queen cell materialise a Queen
(becoming the hive's queen reference and clearing the designation),
otherwise a Worker; record the hatch in the daily summary and clear the
cell back to Empty with zeroed timers. -/
def emergeBee (h : Hive) (p : Pos) : Hive :=
  let isQueenCell := h.emergencyQueenCell = some p
  let h :=
    if isQueenCell then
      let qb := mkBee h.cfg .queen p.q p.r
      { h with queen := some qb, bees := h.bees ++ [qb], emergencyQueenCell := none }
    else
      { h with bees := h.bees ++ [mkBee h.cfg .worker p.q p.r] }
  { h with
    currentDaySummary :=
      { h.currentDaySummary with
        beesHatched := h.currentDaySummary.beesHatched + 1 },
    cellAt := fun x =>
      if x = p then
        { h.cellAt x with state := .empty, developmentTime := 0,
                          maxDevelopmentTime := 0 }
      else h.cellAt x }

/-- Math.round for the stats fixup: floor(x + 1/2). -/
def jsRound (x : Rat) : Int := (x + 1/2).floor

/-- The statistics record that hive.js getStats returns; queenTask is none
where the source shows the placeholder string. -/
structure Stats where
  population : Int
  workers : Int
  brood : Int
  honey : Int
  pollen : Int
  water : Int
  beesInside : Int
  beesOutside : Int
  foragingRate : Int
  queenAge : Rat
  queenMaxAge : Rat
  queenEggsTotal : Int
  queenEggsHour : Int
  queenTask : Option BeeTask
  currentDaySummary : DaySummary
  dailySummaries : List DaySummary

/-- hive.js getStats: the empty-hive early return of all-zero defaults;
otherwise the per-bee and per-cell counts (content sums are over positive
amounts; every modelled quantity is finite, discharging the isFinite
guards), the sliding-window foraging rate and queen rates, and the two
defensive fixups that reconcile beesInside/beesOutside and workers with
the actual population. -/
def getStats (h : Hive) : Stats :=
  if h.bees.isEmpty then
    { population := 0, workers := 0, brood := 0, honey := 0, pollen := 0,
      water := 0, beesInside := 0, beesOutside := 0, foragingRate := 0,
      queenAge := 0, queenMaxAge := 0, queenEggsTotal := 0, queenEggsHour := 0,
      queenTask := none, currentDaySummary := h.currentDaySummary,
      dailySummaries := h.dailySummaries }
  else
    let workerCount0 : Int := ((h.bees.filter fun b => b.type = .worker).length : Int)
    let beesInside0 : Int := ((h.bees.filter fun b => !b.isOutsideHive).length : Int)
    let beesOutside0 : Int := ((h.bees.filter fun b => b.isOutsideHive).length : Int)
    let broodCount : Int := ((h.gridCells.filter Cell.isBrood).length : Int)
    let honeyCount : Rat :=
      ((h.gridCells.filter fun c =>
        (c.state = .honey || c.state = .honeyComplete || c.state = .honeyCapped) &&
        decide (0 < c.contentAmount)).map Cell.contentAmount).foldl (· + ·) 0
    let pollenCount : Rat :=
      ((h.gridCells.filter fun c =>
        (c.state = .pollen || c.state = .beeBread) &&
        decide (0 < c.contentAmount)).map Cell.contentAmount).foldl (· + ·) 0
    let waterCount : Rat :=
      ((h.gridCells.filter fun c =>
        c.state = .water && decide (0 < c.contentAmount)).map
          Cell.contentAmount).foldl (· + ·) 0
    let foragingRate : Int :=
      ((h.foragingHistory.filter fun t =>
        decide (h.simulationTime - 3600 < t)).length : Int)
    let queenAge : Rat := (h.queen.map Bee.age).getD 0
    let queenMaxAge : Rat := (h.queen.map Bee.maxAge).getD 0
    let queenEggsTotal : Int := ((h.queen.map Bee.eggsLaidTotal).getD 0 : Int)
    let queenEggsHour : Int :=
      match h.queen with
      | none => 0
      | some qb => ((qb.eggsLaidHistory.filter fun t =>
          decide (h.simulationTime - 3600 < t)).length : Int)
    let queenTask : Option BeeTask := h.queen.map Bee.task
    let actualPopulation : Int := (h.bees.length : Int)
    let insideOutside : Int × Int :=
      if beesInside0 + beesOutside0 ≠ actualPopulation then
        if beesInside0 + beesOutside0 = 0 ∧ 0 < actualPopulation then
          (actualPopulation, beesOutside0)
        else if beesInside0 + beesOutside0 < actualPopulation then
          (beesInside0 + (actualPopulation - (beesInside0 + beesOutside0)),
           beesOutside0)
        else
          let ratio : Rat := (actualPopulation : Rat) / ((beesInside0 + beesOutside0 : Int) : Rat)
          let bi := jsRound ((beesInside0 : Rat) * ratio)
          (bi, actualPopulation - bi)
      else (beesInside0, beesOutside0)
    let queenCount : Int := if h.queen.isSome then 1 else 0
    let expectedWorkers : Int := actualPopulation - queenCount
    let workerCount1 : Int :=
      if workerCount0 ≠ expectedWorkers ∧ 0 < actualPopulation then
        let recount : Int := ((h.bees.filter fun b => b.type = .worker).length : Int)
        if recount ≠ expectedWorkers then max 0 expectedWorkers else recount
      else workerCount0
    { population := actualPopulation, workers := workerCount1, brood := broodCount,
      honey := honeyCount.floor, pollen := pollenCount.floor,
      water := waterCount.floor, beesInside := insideOutside.1,
      beesOutside := insideOutside.2, foragingRate := foragingRate,
      queenAge := queenAge, queenMaxAge := queenMaxAge,
      queenEggsTotal := queenEggsTotal, queenEggsHour := queenEggsHour,
      queenTask := queenTask, currentDaySummary := h.currentDaySummary,
      dailySummaries := h.dailySummaries }

/-- The persisted projection of a cell: exactly the fields
PersistenceManager.save records per non-default cell.  (pollenType, never
initialised by the Cell constructor, serialises as undefined and is
omitted from the model.) -/
structure CellData where
  q : Int
  r : Int
  state : CellState
  contentAmount : Rat
  isDirty : Bool
  deadBeeCount : Nat
  developmentTime : Rat
  maxDevelopmentTime : Rat
deriving DecidableEq, Repr

/-- The serialised projection of a bee: type, position, age, task and the
four recorded cargo flags.  (hasDeadBee is not serialised; inventory,
absent from the Bee constructor, restores to an empty object.) -/
structure BeeData where
  type : BeeType
  q : Int
  r : Int
  age : Rat
  task : BeeTask
  hasNectar : Bool
  hasPollen : Bool
  hasWater : Bool
  hasFood : Bool
deriving DecidableEq, Repr

def Cell.persisted (c : Cell) : CellData :=
  ⟨c.q, c.r, c.state, c.contentAmount, c.isDirty, c.deadBeeCount,
   c.developmentTime, c.maxDevelopmentTime⟩

/-- The save filter: cells with content, dirt or corpses. -/
def Cell.serializeWorthy (c : Cell) : Bool :=
  !c.isEmpty || c.isDirty || c.hasDeadBee

def Bee.serialized (b : Bee) : BeeData :=
  ⟨b.type, b.q, b.r, b.age, b.task, b.hasNectar, b.hasPollen, b.hasWater, b.hasFood⟩

/-- persistence.js PersistenceManager.save as a pure snapshot: simulation
time, current date (getTime / new Date round-trips the identity on actual
dates), the config, the non-default cells and all bees.  The timestamp and
embedded stats block are derived display data and carry no restored
state. -/
structure SaveData where
  simulationTime : Rat
  currentDate : JsDate
  cfg : Config
  cells : List CellData
  bees : List BeeData
  dailySummaries : List DaySummary

def save (h : Hive) : SaveData :=
  { simulationTime := h.simulationTime,
    currentDate := h.currentDate,
    cfg := h.cfg,
    cells := (h.gridCells.filter Cell.serializeWorthy).map Cell.persisted,
    bees := h.bees.map Bee.serialized,
    dailySummaries := h.dailySummaries }

/-- The per-cell restore of importData: assign the persisted fields onto
the freshly initialised cell. -/
def applyCellData (c : Cell) (cd : CellData) : Cell :=
  { c with
    state := cd.state, contentAmount := cd.contentAmount,
    isDirty := cd.isDirty, deadBeeCount := cd.deadBeeCount,
    developmentTime := cd.developmentTime,
    maxDevelopmentTime := cd.maxDevelopmentTime }

/-- The per-bee restore of importData: the pooled reset (the constructor,
see mkBee) followed by assignment of the serialised fields. -/
def restoreBee (cfg : Config) (bd : BeeData) : Bee :=
  { mkBee cfg bd.type bd.q bd.r with
    age := bd.age, task := bd.task, hasNectar := bd.hasNectar,
    hasPollen := bd.hasPollen, hasWater := bd.hasWater, hasFood := bd.hasFood }

/-- The cell-restoration fold of importData: for each saved cell, if its
key is on the (re-initialised) grid, assign its fields there. -/
def importCellsStep (cfg : Config) (m : Pos → Cell) (cd : CellData) : Pos → Cell :=
  if inGridCfg cfg ⟨cd.q, cd.r⟩ = true then
    fun p => if p = ⟨cd.q, cd.r⟩ then applyCellData (m p) cd else m p
  else m

/-- The bee-restoration fold of importData: pool-acquire, reset, assign the
saved fields, append, and remember the (last) Queen-typed bee as the
hive's queen. -/
def importBeesStep (hh : Hive) (bd : BeeData) : Hive :=
  let bee := restoreBee hh.cfg bd
  { hh with
    bees := hh.bees ++ [bee],
    queen := if bee.type = .queen then some bee else hh.queen }

/-- hive.js importData: restore clock and date (a falsy saved date is
skipped), overwrite the config, release every bee and clear the queen and
the emergency designation, re-initialise the grid and entrances from the
config, apply the saved cells, restore the bees, and adopt the saved daily
summaries (a JS array is truthy even when empty, so they are always
assigned). -/
def importData (h : Hive) (data : SaveData) : Hive :=
  let h := { h with
    simulationTime := data.simulationTime,
    currentDate := if data.currentDate = JsDate.nullish then h.currentDate
                   else data.currentDate,
    cfg := data.cfg,
    bees := [], queen := none, emergencyQueenCell := none,
    cellAt := data.cells.foldl (importCellsStep data.cfg)
      (fun p => Cell.mkFresh p.q p.r) }
  let h := data.bees.foldl importBeesStep h
  { h with dailySummaries := data.dailySummaries }

/-- The non-deterministic environment of one update tick: the Math.random
stream, and the Math.sin evaluation used by updateTemperature (applied to
the hour observation; transcendental, so supplied as an oracle - no
checked claim constrains the temperature). -/
structure Env where
  rnd : List Rat
  sinOfHour : JsNum → Rat

/-- hive.js checkDayRollover: on a day change (strict inequality, so a NaN
day always differs) archive the current summary (keeping the last 7) and
reset the counters. -/
def checkDayRollover (h : Hive) (currentDate : JsDate) : Hive :=
  let currentDay := currentDate.getDateField
  if JsNum.strictNeq currentDay h.lastSummaryDay then
    let summaries := h.dailySummaries ++ [h.currentDaySummary]
    let summaries := if 7 < summaries.length then summaries.tail else summaries
    { h with
      dailySummaries := summaries,
      currentDaySummary := DaySummary.fresh currentDate,
      lastSummaryDay := currentDay }
  else h

/-- The occupancy rebuild of Hive.update: reset every cell's occupant list
and re-count the inside, fully-arrived bees standing on it. -/
def rebuildOccupancy (h : Hive) : Hive :=
  { h with cellAt := fun p =>
      { h.cellAt p with occupyingBeeCount :=
          (h.bees.filter fun b =>
            !b.isOutsideHive && decide (1 ≤ b.moveProgress) &&
            b.q = p.q && b.r = p.r).length } }

/-- The cell phase of Hive.update: update every cell in grid order,
threading the randomness stream, materialising a bee wherever a cell
signals emergence. -/
def cellPhase (h : Hive) (dt : Rat) (rnd : List Rat) : Hive × List Rat :=
  (gridPositions h.cfg).foldl
    (fun acc p =>
      let (c2, emerged, rs2) := Cell.update acc.1.cfg dt (acc.1.cellAt p) acc.2
      let hh := { acc.1 with cellAt := fun x => if x = p then c2 else acc.1.cellAt x }
      (if emerged then emergeBee hh p else hh, rs2))
    (h, rnd)

/-- The entrance cleanup of Hive.update: corpses on entrance cells fall
outside and are disposed. -/
def clearEntranceDead (h : Hive) : Hive :=
  { h with cellAt := fun p =>
      if isEntranceCell h.cfg p.q p.r ∧ 0 < (h.cellAt p).deadBeeCount then
        { h.cellAt p with deadBeeCount := 0 }
      else h.cellAt p }

/-- bee.js Bee.update, modelled to the depth the checked claims require:
ageing, the Queen-never-outside correction, and old-age death.  The task
engine (assignTask, completeTask, movement - spec section 4.2) drives no
checked claim and is elided; no theorem below depends on it. -/
def Bee.updateModel (dt : Rat) (b : Bee) : Bee × Bool :=
  let b := { b with age := b.age + dt }
  let b := if b.type = .queen ∧ b.isOutsideHive = true then
    { b with isOutsideHive := false } else b
  if b.maxAge ≤ b.age then (b, true) else (b, false)

/-- The bee phase of Hive.update: the source iterates backwards with
splice-removal, so the tail (higher indices) is processed first; a death
is recorded in the daily summary, deposits a corpse in its (non-entrance,
inside) cell - two corpses if the bee carried one - and releases the
queen reference (object identity, modelled by value equality). -/
def beePhase (dt : Rat) (simT : Rat) : List Bee → Hive → List Bee × Hive
  | [], h => ([], h)
  | b :: rest, h =>
      let (rest2, h) := beePhase dt simT rest h
      let b := { b with simulationTime := simT }
      let (b2, died) := Bee.updateModel dt b
      if died then
        let h := { h with currentDaySummary :=
          { h.currentDaySummary with
            beesDied := h.currentDaySummary.beesDied + 1 } }
        let h :=
          if !b2.isOutsideHive = true ∧ h.inGrid ⟨b2.q, b2.r⟩ = true ∧
              isEntranceCell h.cfg b2.q b2.r = false then
            { h with cellAt := fun p =>
                if p = ⟨b2.q, b2.r⟩ then
                  { h.cellAt p with deadBeeCount :=
                      (h.cellAt p).deadBeeCount +
                        (if b2.hasDeadBee then 2 else 1) }
                else h.cellAt p }
          else h
        let h := if h.queen = some b then { h with queen := none } else h
        (rest2, h)
      else (b2 :: rest2, h)

/-- hive.js updateTemperature: the seasonal ambient with the sinusoidal
daily variation, the regulation and population effects, and the clamp to
the realistic band around the ambient.  optimalTemperature is the
constructor constant 35. -/
def updateTemperature (env : Env) (dt : Rat) (h : Hive) : Hive :=
  let ambientTemp : Rat :=
    (match getSeason h.currentDate with
     | .winter => 5
     | .spring => 15
     | .summer => 30
     | .fall => 15) + env.sinOfHour h.currentDate.getHours * 5
  let beesRegulating : Nat :=
    (h.bees.filter fun b => b.task = .temperatureRegulation).length
  let regulationEffect : Rat := (beesRegulating : Rat) * (1/10)
  let populationEffect : Rat := min ((h.bees.length : Rat) * (1/100)) 5
  let drift := (ambientTemp - h.temperature) * (1/100) * dt
  let regulation := (35 - h.temperature) * (5/100 + regulationEffect * (1/10)) * dt
  let temp := h.temperature + drift + regulation + populationEffect * (1/100) * dt
  { h with temperature := max (ambientTemp - 10) (min (ambientTemp + 15) temp) }

/-- hive.js Hive.update: the input-validation guard (an invalid deltaTime -
falsy, which covers 0 and NaN, non-positive, or non-finite - or a
currentDate that is null or not a Date instance warns and returns before
touching any state), then the tick body: clock and date advance, day
rollover, the empty-hive early return, occupancy rebuild, the cell phase
with emergence, entrance corpse disposal, the bee phase, temperature, and
emergency queen succession when the queen is gone but bees remain. -/
def Hive.update (env : Env) (deltaTime : JsNum) (currentDate : JsDate) (h : Hive) :
    Hive :=
  if deltaTime.falsy || deltaTime.le0 || !deltaTime.isFiniteNum then h
  else if currentDate = JsDate.nullish then h
  else
    match deltaTime with
    | .num dt =>
        let h := { h with currentDate := currentDate,
                          simulationTime := h.simulationTime + dt }
        let h := checkDayRollover h currentDate
        if h.bees.isEmpty then h
        else
          let h := rebuildOccupancy h
          let h := (cellPhase h dt env.rnd).1
          let h := clearEntranceDead h
          let h :=
            let res := beePhase dt h.simulationTime h.bees h
            { res.2 with bees := res.1 }
          let h := updateTemperature env dt h
          if h.queen.isNone ∧ h.bees.isEmpty = false then createEmergencyQueen h
          else h
    | _ => h   -- unreachable: the guard admits only finite positive numbers

/-- A small concrete configuration used by the concrete evaluations below. -/
def testConfig : Config :=
  { columns := 3, rows := 3, entranceSide := .bottom, entranceCount := 1,
    maxBeesPerCell := 9, eggDuration := 10, larvaeDuration := 10, pupaDuration := 10,
    pollenToBeeBreadConversion := 1/2, queenLifespan := 100, workerLifespan := 10 }

/-- A two-cell hive (2 columns, 1 row) whose start cell (0,0) is full:
fixture for the pathfinding counterexample. -/
def pfHive : Hive :=
  { cfg := { testConfig with columns := 2, rows := 1 },
    cellAt := fun p =>
      if p = ⟨0, 0⟩ then { Cell.mkFresh 0 0 with occupyingBeeCount := 9 }
      else Cell.mkFresh p.q p.r,
    bees := [], queen := none, emergencyQueenCell := none,
    simulationTime := 0, currentDate := .valid 1 0 12, temperature := 35,
    foragingHistory := [], dailySummaries := [],
    currentDaySummary := DaySummary.fresh (.valid 1 0 12),
    lastSummaryDay := .num 1, cache := [] }

/-- The same two-cell hive with no full cells: fixture for the pathfinding
witnesses. -/
def openHive : Hive :=
  { pfHive with cellAt := fun p => Cell.mkFresh p.q p.r }

/-- A degenerate environment for concrete update evaluations: exhausted
randomness, zero sine. -/
def envZero : Env :=
  { rnd := [], sinOfHour := fun x => 0 }

/-- The open two-cell hive with one worker and an emergency-queen
designation on (1,0): fixture for the emergence evaluation. -/
def eqHive : Hive :=
  { openHive with
    emergencyQueenCell := some ⟨1, 0⟩,
    bees := [mkBee pfHive.cfg .worker 0 0] }

/-- The two-cell hive holding two eggs, the one at (0,0) younger than the
one at (1,0), a worker, and no queen: fixture for the egg-fallback
evaluation. -/
def egg2Hive : Hive :=
  { pfHive with
    cellAt := fun p =>
      if p = ⟨0, 0⟩ then
        { Cell.mkFresh 0 0 with state := .egg, developmentTime := 1,
                                maxDevelopmentTime := 10 }
      else
        { Cell.mkFresh p.q p.r with state := .egg, developmentTime := 5,
                                    maxDevelopmentTime := 10 },
    bees := [mkBee pfHive.cfg .worker 0 0] }

/-- The open two-cell hive with a single worker: fixture for the
statistics evaluation. -/
def beeHive : Hive :=
  { openHive with bees := [mkBee pfHive.cfg .worker 0 0] }

/-- The two-cell hive whose single worker carries a dead bee: fixture for
the persistence evaluation. -/
def deadCarrierHive : Hive :=
  { pfHive with bees := [{ mkBee pfHive.cfg .worker 0 0 with hasDeadBee := true }] }

/-- The two-cell hive with a plain worker: fixture for the persistence
round-trip evaluation. -/
def wfHive : Hive :=
  { pfHive with bees := [mkBee pfHive.cfg .worker 1 0] }

@[simp] lemma isEmpty_iff (c : Cell) : c.isEmpty = true ↔ c.state = .empty := by
  simp [Cell.isEmpty]

@[simp] lemma isOccupied_iff (c : Cell) : c.isOccupied = true ↔ 0 < c.occupyingBeeCount := by
  simp [Cell.isOccupied]

@[simp] lemma isFull_iff (cfg : Config) (c : Cell) :
    c.isFull cfg = true ↔ cfg.maxBees ≤ c.occupyingBeeCount := by
  simp [Cell.isFull]

lemma isBrood_iff (c : Cell) :
    c.isBrood = true ↔ (c.state = .egg ∨ c.state = .larvaeHungry ∨
      c.state = .larvaeFed ∨ c.state = .cappedBrood) := by
  simp [Cell.isBrood]; tauto

lemma isFood_iff (c : Cell) :
    c.isFood = true ↔ (c.state = .nectar ∨ c.state = .honey ∨ c.state = .honeyComplete ∨
      c.state = .honeyCapped ∨ c.state = .pollen ∨ c.state = .beeBread ∨
      c.state = .water) := by
  simp [Cell.isFood]; tauto

lemma applyOp_step (op : CellOp) (c : Cell) (hv : op.validAmount) (hc : contentInv c) :
    contentInv (applyOp op c) ∧
    (op.isAdd = true → c.contentAmount ≤ (applyOp op c).contentAmount) ∧
    (op.isAdd = false → (applyOp op c).contentAmount ≤ c.contentAmount) := by
  obtain ⟨h0, hemp, h10, h5⟩ := hc
  cases op with
  | addNectar a =>
      obtain ⟨ha0, hacap⟩ := hv
      simp only [applyOp, Cell.addNectar, CellOp.isAdd]
      split_ifs with h1 h2
      · rw [isEmpty_iff] at h1
        refine ⟨⟨le_of_lt ha0, by simp, fun _ => hacap, by simp⟩,
          fun _ => by rw [hemp h1]; exact le_of_lt ha0, by simp⟩
      · rw [Bool.and_eq_true, decide_eq_true_eq, decide_eq_true_eq] at h2
        refine ⟨⟨le_min (by norm_num) (by linarith), by simp [h2.1],
          fun _ => min_le_left _ _, fun hw => by simp [h2.1] at hw⟩,
          fun _ => le_min (le_of_lt h2.2) (by linarith), by simp⟩
      · exact ⟨⟨h0, hemp, h10, h5⟩, fun _ => le_refl _, by simp⟩
  | addPollen a =>
      obtain ⟨ha0, hacap⟩ := hv
      simp only [applyOp, Cell.addPollen, CellOp.isAdd]
      split_ifs with h1 h2
      · rw [isEmpty_iff] at h1
        refine ⟨⟨le_of_lt ha0, by simp, fun _ => hacap, by simp⟩,
          fun _ => by rw [hemp h1]; exact le_of_lt ha0, by simp⟩
      · rw [Bool.and_eq_true, decide_eq_true_eq, decide_eq_true_eq] at h2
        refine ⟨⟨le_min (by norm_num) (by linarith), by simp [h2.1],
          fun _ => min_le_left _ _, fun hw => by simp [h2.1] at hw⟩,
          fun _ => le_min (le_of_lt h2.2) (by linarith), by simp⟩
      · exact ⟨⟨h0, hemp, h10, h5⟩, fun _ => le_refl _, by simp⟩
  | addWater a =>
      obtain ⟨ha0, hacap⟩ := hv
      simp only [applyOp, Cell.addWater, CellOp.isAdd]
      split_ifs with h1 h2
      · rw [isEmpty_iff] at h1
        refine ⟨⟨le_of_lt ha0, by simp, by simp, fun _ => hacap⟩,
          fun _ => by rw [hemp h1]; exact le_of_lt ha0, by simp⟩
      · rw [Bool.and_eq_true, decide_eq_true_eq, decide_eq_true_eq] at h2
        refine ⟨⟨le_min (by norm_num) (by linarith), by simp [h2.1],
          fun hf => by simp [h2.1] at hf, fun _ => min_le_left _ _⟩,
          fun _ => le_min (le_of_lt h2.2) (by linarith), by simp⟩
      · exact ⟨⟨h0, hemp, h10, h5⟩, fun _ => le_refl _, by simp⟩
  | consumeHoney a =>
      have ha0 : (0 : Rat) < a := hv
      simp only [applyOp, Cell.consumeHoney, CellOp.isAdd]
      split_ifs with h1 h2
      · refine ⟨by simp [contentInv], by simp, fun _ => by simpa using h0⟩
      · rw [Bool.or_eq_true, decide_eq_true_eq, decide_eq_true_eq] at h1
        simp only [contentInv]
        refine ⟨⟨by linarith, fun he => ?_, fun _ => by linarith [h10 (by tauto)],
          fun hw => ?_⟩, by simp, fun _ => by linarith⟩
        · rcases h1 with h1 | h1 <;> simp [h1] at he
        · rcases h1 with h1 | h1 <;> simp [h1] at hw
      · exact ⟨⟨h0, hemp, h10, h5⟩, by simp, fun _ => le_refl _⟩
  | consumePollen a =>
      have ha0 : (0 : Rat) < a := hv
      simp only [applyOp, Cell.consumePollen, CellOp.isAdd]
      split_ifs with h1 h2
      · refine ⟨by simp [contentInv], by simp, fun _ => by simpa using h0⟩
      · rw [Bool.or_eq_true, decide_eq_true_eq, decide_eq_true_eq] at h1
        simp only [contentInv]
        refine ⟨⟨by linarith, fun he => ?_, fun _ => by linarith [h10 (by tauto)],
          fun hw => ?_⟩, by simp, fun _ => by linarith⟩
        · rcases h1 with h1 | h1 <;> simp [h1] at he
        · rcases h1 with h1 | h1 <;> simp [h1] at hw
      · exact ⟨⟨h0, hemp, h10, h5⟩, by simp, fun _ => le_refl _⟩
  | consumeWater a =>
      have ha0 : (0 : Rat) < a := hv
      simp only [applyOp, Cell.consumeWater, CellOp.isAdd]
      split_ifs with h1 h2
      · refine ⟨by simp [contentInv], by simp, fun _ => by simpa using h0⟩
      · simp only [contentInv]
        refine ⟨⟨by linarith, fun he => by simp [h1] at he,
          fun hf => ?_, fun _ => by linarith [h5 h1]⟩,
          by simp, fun _ => by linarith⟩
        rcases hf with h | h | h | h | h | h <;> simp [h1] at h
      · exact ⟨⟨h0, hemp, h10, h5⟩, by simp, fun _ => le_refl _⟩

lemma applyOps_inv (ops : List CellOp) (c : Cell)
    (hv : ∀ op ∈ ops, op.validAmount) (hc : contentInv c) :
    contentInv (applyOps ops c) := by
  induction ops generalizing c with
  | nil => simpa [applyOps] using hc
  | cons op rest ih =>
      have hop := applyOp_step op c (hv op (by simp)) hc
      have : applyOps (op :: rest) c = applyOps rest (applyOp op c) := rfl
      rw [this]
      exact ih (applyOp op c) (fun o ho => hv o (by simp [ho])) hop.1

lemma decayFood_not_food (dt : Rat) (c : Cell) (rnd : List Rat) (h : c.isFood = false) :
    Cell.update.decayFood dt c rnd = (c, false, rnd) := by
  unfold Cell.update.decayFood
  simp [h]

lemma decayFood_state_cases (dt : Rat) (c : Cell) (rnd : List Rat) :
    (Cell.update.decayFood dt c rnd).1.state = c.state ∨
    (Cell.update.decayFood dt c rnd).1.state = .empty := by
  unfold Cell.update.decayFood
  simp only [nextRand]
  split_ifs <;> simp

lemma decayFood_state_of_content (dt : Rat) (c : Cell) (rnd : List Rat)
    (h : (1 : Rat)/5 < c.contentAmount) :
    (Cell.update.decayFood dt c rnd).1.state = c.state := by
  unfold Cell.update.decayFood
  simp only [nextRand]
  split_ifs <;> first
    | rfl
    | (exfalso; linarith)

lemma decayFood_ne (dt : Rat) (c : Cell) (rnd : List Rat) (s : CellState)
    (h1 : c.state ≠ s) (h2 : s ≠ .empty) :
    (Cell.update.decayFood dt c rnd).1.state ≠ s := by
  rcases decayFood_state_cases dt c rnd with h | h <;> rw [h]
  · exact h1
  · exact fun hh => h2 hh.symm

theorem C4_larvae_timing (cfg : Config) (dt : Rat) (c : Cell) (rnd : List Rat) :
    (c.state = .larvaeHungry →
      (c.developmentTime + dt * (1/2) < c.maxDevelopmentTime →
        Cell.update cfg dt c rnd =
          ({ c with developmentTime := c.developmentTime + dt * (1/2) }, false, rnd)) ∧
      (c.maxDevelopmentTime ≤ c.developmentTime + dt * (1/2) →
        (Cell.update cfg dt c rnd).1.state = .cappedBrood ∧
        (Cell.update cfg dt c rnd).1.developmentTime = 0 ∧
        (Cell.update cfg dt c rnd).1.maxDevelopmentTime = cfg.pupaDuration)) ∧
    ((c.state = .egg ∨ c.state = .larvaeFed ∨ c.state = .cappedBrood) →
      c.developmentTime + dt < c.maxDevelopmentTime →
        Cell.update cfg dt c rnd =
          ({ c with developmentTime := c.developmentTime + dt }, false, rnd)) ∧
    (c.state = .larvaeFed → c.maxDevelopmentTime ≤ c.developmentTime + dt →
        (Cell.update cfg dt c rnd).1.state = .cappedBrood ∧
        (Cell.update cfg dt c rnd).1.maxDevelopmentTime = cfg.pupaDuration) ∧
    (c.state = .larvaeHungry → Cell.feedLarvae c = (true, { c with state := .larvaeFed })) := by
  obtain ⟨q, r, st, occ, dev, mx, amt, dirty, dead⟩ := c
  refine ⟨fun h => ?_, fun h => ?_, fun h => ?_, fun h => ?_⟩
  · simp only at h
    subst h
    constructor <;>
      intro hyp <;>
      simp only at hyp <;>
      simp +decide [Cell.update, Cell.isBrood] <;>
      split_ifs <;>
      first
        | (exfalso; linarith)
        | (simp +decide [decayFood_not_food, Cell.isFood]; done)
  · rcases h with h | h | h <;> simp only at h <;> subst h <;>
      intro hlt <;>
      simp only at hlt <;>
      simp +decide [Cell.update, Cell.isBrood] <;>
      split_ifs <;>
      first
        | (exfalso; linarith)
        | (simp +decide [decayFood_not_food, Cell.isFood]; done)
  · simp only at h
    subst h
    intro hge
    simp only at hge
    simp +decide [Cell.update, Cell.isBrood]
    split_ifs <;>
      first
        | (exfalso; linarith)
        | (simp +decide [decayFood_not_food, Cell.isFood]; done)
  · simp only at h
    subst h
    simp [Cell.feedLarvae]

/-- C4 witness: a concrete LarvaeHungry cell just below its timer expiry
transitions to CappedBrood, and feedLarvae on it returns true. -/
theorem C4_larvae_timing_witness :
    ((Cell.update testConfig 4
        { q := 0, r := 0, state := .larvaeHungry, occupyingBeeCount := 0,
          developmentTime := 9, maxDevelopmentTime := 10, contentAmount := 0,
          isDirty := false, deadBeeCount := 0 } []).1.state = .cappedBrood ∧
      (Cell.feedLarvae
        { q := 0, r := 0, state := .larvaeHungry, occupyingBeeCount := 0,
          developmentTime := 9, maxDevelopmentTime := 10, contentAmount := 0,
          isDirty := false, deadBeeCount := 0 }).1 = true) := by
  have h := C4_larvae_timing testConfig 4
    { q := 0, r := 0, state := .larvaeHungry, occupyingBeeCount := 0,
      developmentTime := 9, maxDevelopmentTime := 10, contentAmount := 0,
      isDirty := false, deadBeeCount := 0 } []
  refine ⟨((h.1 rfl).2 (by norm_num [testConfig])).1, ?_⟩
  rw [h.2.2.2 rfl]

/-- C8: a Honey cell with contentAmount at least 8 becomes HoneyComplete on
the same update call; no update call ever moves a cell into HoneyCapped;
only capHoney does, exactly on HoneyComplete cells (returning true), and
it returns false leaving the cell unchanged on every other state. -/
theorem C8_honey_capping (cfg : Config) (dt : Rat) (c : Cell) (rnd : List Rat) :
    (c.state = .honey → 8 ≤ c.contentAmount →
      (Cell.update cfg dt c rnd).1.state = .honeyComplete) ∧
    (c.state ≠ .honeyCapped → (Cell.update cfg dt c rnd).1.state ≠ .honeyCapped) ∧
    (c.state = .honeyComplete → Cell.capHoney c = (true, { c with state := .honeyCapped })) ∧
    (c.state ≠ .honeyComplete → Cell.capHoney c = (false, c)) := by
  obtain ⟨q, r, st, occ, dev, mx, amt, dirty, dead⟩ := c
  refine ⟨fun h hge => ?_, fun h => ?_, fun h => ?_, fun h => ?_⟩
  · simp only at h hge
    subst h
    simp +decide [Cell.update, Cell.isBrood]
    rw [if_pos hge]
    rw [decayFood_state_of_content dt
      { q := q, r := r, state := .honeyComplete, occupyingBeeCount := occ,
        developmentTime := dev, maxDevelopmentTime := mx, contentAmount := amt,
        isDirty := dirty, deadBeeCount := dead } rnd (by simp only; linarith)]
  · simp only at h
    cases st <;>
      first
        | exact absurd rfl h
        | (simp +decide [Cell.update, Cell.isBrood, Cell.isFood]
           try split_ifs
           all_goals first
             | simp
             | (apply decayFood_ne <;> simp)
             | (apply decayFood_ne <;> simp +decide))
  · simp only at h
    subst h
    simp [Cell.capHoney]
  · simp only at h
    simp [Cell.capHoney, h]

/-- C8 witness: a concrete Honey cell holding 8 units completes on the tick,
and capHoney then caps the completed cell. -/
theorem C8_honey_capping_witness :
    ((Cell.update testConfig 1
        { q := 0, r := 0, state := .honey, occupyingBeeCount := 0,
          developmentTime := 0, maxDevelopmentTime := 0, contentAmount := 8,
          isDirty := false, deadBeeCount := 0 } []).1.state = .honeyComplete ∧
      (Cell.capHoney
        { q := 0, r := 0, state := .honeyComplete, occupyingBeeCount := 0,
          developmentTime := 0, maxDevelopmentTime := 0, contentAmount := 8,
          isDirty := false, deadBeeCount := 0 }).1 = true) := by
  have h := C8_honey_capping testConfig 1
    { q := 0, r := 0, state := .honey, occupyingBeeCount := 0,
      developmentTime := 0, maxDevelopmentTime := 0, contentAmount := 8,
      isDirty := false, deadBeeCount := 0 } []
  have h2 := C8_honey_capping testConfig 1
    { q := 0, r := 0, state := .honeyComplete, occupyingBeeCount := 0,
      developmentTime := 0, maxDevelopmentTime := 0, contentAmount := 8,
      isDirty := false, deadBeeCount := 0 } []
  refine ⟨h.1 rfl (by norm_num), ?_⟩
  rw [h2.2.2.1 rfl]

/-- C5 (amended): getHexNeighbors returns exactly 6 neighbours, and distance
computes the cube-coordinate hex formula; but of the 6 offset-coordinate
neighbours, only five are at distance 1 - the diagonal neighbour
((q-1, r-1) for an even column, (q+1, r+1) for an odd column) is at
distance 2, so distance does not coincide with shortest-path length in the
getHexNeighbors adjacency: the two functions use different coordinate
conventions. -/
theorem C5_neighbor_distance (col row : Int) :
    (getHexNeighbors col row).length = 6 ∧
    ((getHexNeighbors col row).map (fun p => distance col row p.q p.r)) =
      (if col % 2 = 0 then [1, 1, 1, 2, 1, 1] else [2, 1, 1, 1, 1, 1]) := by
  unfold getHexNeighbors distance
  by_cases h : col % 2 = 0 <;> simp [h] <;> omega

/-- C5 counterexample: the cell (-1,-1) is returned by getHexNeighbors(0,0),
yet distance(0,0,-1,-1) evaluates to 2, not 1 - so not every neighbour is
at distance 1, and distance differs from the adjacency's shortest-path
metric (which gives 1 for a direct neighbour). -/
theorem C5_counterexample :
    (⟨-1, -1⟩ : Pos) ∈ getHexNeighbors 0 0 ∧
    distance 0 0 (-1) (-1) = 2 ∧ distance 0 0 (-1) (-1) ≠ 1 := by decide

/-- C6 (amended): for every sequence of add/consume operations whose add
amounts are positive and at most the type maximum (as every call site in
the simulator is: 3-5 for nectar/pollen, 1 for water) and whose consume
amounts are positive, the content invariant is preserved: contentAmount
stays within 0 and the type maximum (10 for nectar/honey/pollen, 5 for
water), rises only at add operations, falls only at consume operations,
and consuming down to a non-positive remainder clamps the amount to 0 and
resets the cell to Empty.  (Unconditionally, the empty-cell add branch
stores its argument uncapped - see the counterexample.) -/
theorem C6_content_accounting (ops : List CellOp) (c : Cell)
    (hv : ∀ op ∈ ops, op.validAmount) (hc : contentInv c) :
    contentInv (applyOps ops c) ∧
    (∀ op d, op.validAmount → contentInv d →
      (op.isAdd = true → d.contentAmount ≤ (applyOp op d).contentAmount) ∧
      (op.isAdd = false → (applyOp op d).contentAmount ≤ d.contentAmount)) ∧
    (∀ a d, d.contentAmount - a ≤ 0 →
      ((d.state = .honey ∨ d.state = .honeyComplete) →
        (Cell.consumeHoney a d).2.state = .empty ∧
        (Cell.consumeHoney a d).2.contentAmount = 0) ∧
      ((d.state = .pollen ∨ d.state = .beeBread) →
        (Cell.consumePollen a d).2.state = .empty ∧
        (Cell.consumePollen a d).2.contentAmount = 0) ∧
      (d.state = .water →
        (Cell.consumeWater a d).2.state = .empty ∧
        (Cell.consumeWater a d).2.contentAmount = 0)) := by
  refine ⟨applyOps_inv ops c hv hc,
    fun op d hvo hcd =>
      ⟨(applyOp_step op d hvo hcd).2.1, (applyOp_step op d hvo hcd).2.2⟩,
    fun a d hle => ⟨fun hs => ?_, fun hs => ?_, fun hs => ?_⟩⟩
  · rcases hs with hs | hs <;> simp [Cell.consumeHoney, hs, hle]
  · rcases hs with hs | hs <;> simp [Cell.consumePollen, hs, hle]
  · simp [Cell.consumeWater, hs, hle]

/-- C6 counterexample: calling addNectar with amount 12 on a fresh empty
cell stores contentAmount 12, exceeding the nectar maximum of 10 - the
empty-cell branch of addNectar does not cap the stored amount. -/
theorem C6_counterexample :
    ((Cell.mkFresh 0 0).addNectar 12).2.state = .nectar ∧
    ((Cell.mkFresh 0 0).addNectar 12).2.contentAmount = 12 ∧
    ¬ (((Cell.mkFresh 0 0).addNectar 12).2.contentAmount ≤ 10) := by decide

/-- C6 witness: a concrete operation sequence on a fresh cell keeps the
content invariant. -/
theorem C6_content_accounting_witness :
    contentInv (applyOps [CellOp.addNectar 3, CellOp.addNectar 4, CellOp.consumeHoney 1]
      (Cell.mkFresh 0 0)) :=
  (C6_content_accounting [CellOp.addNectar 3, CellOp.addNectar 4, CellOp.consumeHoney 1]
    (Cell.mkFresh 0 0)
    (by intro op hop
        simp only [List.mem_cons, List.not_mem_nil, or_false] at hop
        rcases hop with rfl | rfl | rfl <;> norm_num [CellOp.validAmount])
    (by norm_num [contentInv, Cell.mkFresh])).1

lemma pqEnqueue_mem {l : List (Pos × Nat)} {e : Pos} {pr : Nat} {x : Pos × Nat}
    (hx : x ∈ pqEnqueue l e pr) : x = (e, pr) ∨ x ∈ l := by
  induction l with
  | nil => simpa [pqEnqueue] using hx
  | cons y rest ih =>
      simp only [pqEnqueue] at hx
      split_ifs at hx with hp
      · rcases List.mem_cons.1 hx with h | h
        · exact Or.inl h
        · exact Or.inr h
      · rcases List.mem_cons.1 hx with h | h
        · exact Or.inr (by simp [h])
        · rcases ih h with h2 | h2
          · exact Or.inl h2
          · exact Or.inr (by simp [h2])

lemma mapSet_isSome {α : Type} (m : Pos → Option α) (k : Pos) (v : α) (p : Pos) :
    ((mapSet m k v) p).isSome = true ↔ p = k ∨ (m p).isSome = true := by
  simp only [mapSet]
  split_ifs with hpk <;> simp [hpk]

lemma mapSet_ne {α : Type} (m : Pos → Option α) (k : Pos) (v : α) (p : Pos)
    (h : p ≠ k) : (mapSet m k v) p = m p := by
  simp [mapSet, h]

lemma mapSet_same {α : Type} (m : Pos → Option α) (k : Pos) (v : α) :
    (mapSet m k v) k = some v := by
  simp [mapSet]

lemma getHexNeighbors_ne (q r : Int) (p : Pos) (hp : p ∈ getHexNeighbors q r) :
    p ≠ ⟨q, r⟩ := by
  unfold getHexNeighbors at hp
  split_ifs at hp <;> simp at hp <;>
    rcases hp with h | h | h | h | h | h <;> subst h <;> simp <;> omega

lemma relax_ne_start (h : Hive) (start endP : Pos) (st : AStar)
    (inv : AStarInv h start endP st) (next : Pos) (cc mc : Nat) (hmc : 1 ≤ mc)
    (hrelax : ∀ v, st.costSoFar next = some v → cc + mc < v) :
    next ≠ start := by
  intro heq
  subst heq
  have := hrelax 0 inv.costStart
  omega

lemma relax_inv (h : Hive) (start endP : Pos) (current next : Pos)
    (st : AStar) (inv : AStarInv h start endP st)
    (cc : Nat) (hcc : st.costSoFar current = some cc)
    (hcur : current = start ∨ ((h.cellsGet current).isSome ∧ h.isFullAt current = false))
    (hn : next ∈ getHexNeighbors current.q current.r)
    (hcell : (h.cellsGet next).isSome)
    (hok : h.isFullAt next = false ∨ next = endP)
    (mc pr : Nat) (hmc : 1 ≤ mc)
    (hrelax : ∀ v, st.costSoFar next = some v → cc + mc < v) :
    AStarInv h start endP
      { frontier := pqEnqueue st.frontier next pr,
        cameFrom := mapSet st.cameFrom next (some current),
        costSoFar := mapSet st.costSoFar next (cc + mc) } := by
  have hns : next ≠ start := relax_ne_start h start endP st inv next cc mc hmc hrelax
  have hnc : next ≠ current := by
    intro hEq
    subst hEq
    exact absurd hcc (by have := hrelax cc; intro hc; have := this hc; omega)
  refine ⟨?_, ?_, ?_, ?_, ?_, ?_, ?_, ?_⟩ <;> dsimp only
  · intro e he
    rcases pqEnqueue_mem he with rfl | he2
    · exact Or.inr ⟨hcell, hok⟩
    · exact inv.frontierOK e he2
  · intro e he
    rcases pqEnqueue_mem he with rfl | he2
    · simp [mapSet_same]
    · rw [mapSet_isSome]
      exact Or.inr (inv.frontierCost e he2)
  · intro p hp
    by_cases hpn : p = next
    · subst hpn
      exact Or.inr ⟨hcell, hok⟩
    · rw [mapSet_ne _ _ _ _ hpn] at hp
      exact inv.keyOK p hp
  · rw [mapSet_ne _ _ _ _ (Ne.symm hns)]
    exact inv.startNull
  · intro p hp
    by_cases hpn : p = next
    · subst hpn
      rw [mapSet_same] at hp
      exact absurd hp (by simp)
    · rw [mapSet_ne _ _ _ _ hpn] at hp
      exact inv.nullOnlyStart p hp
  · intro p
    by_cases hpn : p = next
    · subst hpn
      simp [mapSet_same]
    · rw [mapSet_ne _ _ _ _ hpn, mapSet_ne _ _ _ _ hpn]
      exact inv.sync p
  · rw [mapSet_ne _ _ _ _ (Ne.symm hns)]
    exact inv.costStart
  · intro p qq hpq
    by_cases hpn : p = next
    · rw [hpn, mapSet_same] at hpq
      have hq : qq = current := by
        injection hpq with h2
        injection h2 with h3
        exact h3.symm
      rw [hpn, hq]
      refine ⟨hcur, ?_, hn, cc + mc, cc, mapSet_same _ _ _, ?_, by omega⟩
      · rw [mapSet_isSome]
        exact Or.inr ((inv.sync current).2 (by simp [hcc]))
      · rw [mapSet_ne _ _ _ _ (Ne.symm hnc)]
        exact hcc
    · rw [mapSet_ne _ _ _ _ hpn] at hpq
      obtain ⟨hqp, hqcf, hadj, cp, cq, hcp, hcq, hlt⟩ := inv.parentProp p qq hpq
      refine ⟨hqp, ?_, hadj, ?_⟩
      · rw [mapSet_isSome]
        exact Or.inr hqcf
      · by_cases hqn : qq = next
        · subst hqn
          have hv := hrelax cq hcq
          exact ⟨cp, cc + mc, by rw [mapSet_ne _ _ _ _ hpn]; exact hcp,
            mapSet_same _ _ _, by omega⟩
        · exact ⟨cp, cq, by rw [mapSet_ne _ _ _ _ hpn]; exact hcp,
            by rw [mapSet_ne _ _ _ _ hqn]; exact hcq, hlt⟩

lemma processNeighbors_inv (h : Hive) (start endP : Pos) (pe : Bool) (current : Pos)
    (hcur : current = start ∨ ((h.cellsGet current).isSome ∧ h.isFullAt current = false)) :
    ∀ ns st, AStarInv h start endP st →
      (∃ cc, st.costSoFar current = some cc) →
      (∀ n ∈ ns, n ∈ getHexNeighbors current.q current.r) →
      AStarInv h start endP (processNeighbors h endP pe current ns st) := by
  intro ns
  induction ns with
  | nil => intro st inv _ _; exact inv
  | cons next rest ih =>
      intro st inv hex hns
      obtain ⟨cc, hcc⟩ := hex
      have hnextmem : next ∈ getHexNeighbors current.q current.r := hns next (by simp)
      have hnc : next ≠ current :=
        getHexNeighbors_ne current.q current.r next hnextmem
      have htail : ∀ n ∈ rest, n ∈ getHexNeighbors current.q current.r :=
        fun n hn => hns n (by simp [hn])
      simp only [processNeighbors]
      cases hcell : h.cellsGet next with
      | none =>
          dsimp only
          exact ih st inv ⟨cc, hcc⟩ htail
      | some nextCell =>
          dsimp only
          by_cases hskip : nextCell.isFull h.cfg = true ∧ next ≠ endP
          · rw [if_pos hskip]
            exact ih st inv ⟨cc, hcc⟩ htail
          · rw [if_neg hskip]
            have hok : h.isFullAt next = false ∨ next = endP := by
              rcases not_and_or.1 hskip with hf | he
              · left
                have hf2 : nextCell.isFull h.cfg = false := by
                  cases hb : nextCell.isFull h.cfg
                  · rfl
                  · exact absurd hb hf
                simp [Hive.isFullAt, hcell, hf2]
              · exact Or.inr (not_ne_iff.1 he)
            rw [hcc]
            dsimp only [Option.getD]
            cases hnext : st.costSoFar next with
            | none =>
                dsimp only
                refine ih _ (relax_inv h start endP current next st inv cc hcc hcur
                  hnextmem (by simp [hcell]) hok _ _ ?_ ?_) ⟨cc, ?_⟩ htail
                · split_ifs <;> norm_num
                · intro v hv
                  rw [hnext] at hv
                  cases hv
                · exact (mapSet_ne _ _ _ _ (Ne.symm hnc)).trans hcc
            | some v =>
                dsimp only
                by_cases hlt : cc + (if pe = true ∧ nextCell.isOccupied = true ∧
                    next ≠ endP then 3 else 1) < v
                · rw [if_pos (by simpa using hlt)]
                  refine ih _ (relax_inv h start endP current next st inv cc hcc hcur
                    hnextmem (by simp [hcell]) hok _ _ ?_ ?_) ⟨cc, ?_⟩ htail
                  · split_ifs <;> norm_num
                  · intro w hw
                    rw [hnext] at hw
                    injection hw with hw
                    rw [hw] at hlt
                    exact hlt
                  · exact (mapSet_ne _ _ _ _ (Ne.symm hnc)).trans hcc
                · rw [if_neg (by simpa using hlt)]
                  exact ih st inv ⟨cc, hcc⟩ htail

lemma astarInit_inv (h : Hive) (start endP : Pos) :
    AStarInv h start endP
      { frontier := pqEnqueue [] start 0,
        cameFrom := mapSet (fun _ => none) start none,
        costSoFar := mapSet (fun _ => none) start 0 } := by
  refine ⟨?_, ?_, ?_, ?_, ?_, ?_, ?_, ?_⟩ <;> dsimp only
  · intro e he
    simp only [pqEnqueue, List.mem_singleton] at he
    exact Or.inl (by simp [he])
  · intro e he
    simp only [pqEnqueue, List.mem_singleton] at he
    simp [he, mapSet_same]
  · intro p hp
    by_cases hps : p = start
    · exact Or.inl hps
    · rw [mapSet_ne _ _ _ _ hps] at hp
      simp at hp
  · exact mapSet_same _ _ _
  · intro p hp
    by_cases hps : p = start
    · exact hps
    · rw [mapSet_ne _ _ _ _ hps] at hp
      simp at hp
  · intro p
    by_cases hps : p = start
    · rw [hps, mapSet_same, mapSet_same]
      simp
    · rw [mapSet_ne _ _ _ _ hps, mapSet_ne _ _ _ _ hps]
      simp
  · exact mapSet_same _ _ _
  · intro p q hpq
    by_cases hps : p = start
    · rw [hps, mapSet_same] at hpq
      simp at hpq
    · rw [mapSet_ne _ _ _ _ hps] at hpq
      simp at hpq

lemma astarLoop_inv (h : Hive) (start endP : Pos) (pe : Bool) :
    ∀ fuel st, AStarInv h start endP st →
      AStarInv h start endP (astarLoop h endP pe fuel st) := by
  intro fuel
  induction fuel with
  | zero => intro st inv; exact inv
  | succ n ih =>
      intro st inv
      simp only [astarLoop]
      cases hfr : st.frontier with
      | nil => exact inv
      | cons e rest =>
          obtain ⟨current, pr⟩ := e
          dsimp only
          by_cases hend : current = endP
          · rw [if_pos hend]
            exact inv
          · rw [if_neg hend]
            have hmem : (current, pr) ∈ st.frontier := by
              rw [hfr]
              simp
            have inv1 : AStarInv h start endP { st with frontier := rest } := by
              refine ⟨?_, ?_, inv.keyOK, inv.startNull, inv.nullOnlyStart, inv.sync,
                inv.costStart, inv.parentProp⟩
              · intro e2 he2
                exact inv.frontierOK e2 (by rw [hfr]; exact List.mem_cons_of_mem _ he2)
              · intro e2 he2
                exact inv.frontierCost e2 (by rw [hfr]; exact List.mem_cons_of_mem _ he2)
            have hcur : current = start ∨
                ((h.cellsGet current).isSome ∧ h.isFullAt current = false) := by
              rcases inv.frontierOK (current, pr) hmem with hl | ⟨hg, hf⟩
              · exact Or.inl hl
              · rcases hf with hf | hf
                · exact Or.inr ⟨hg, hf⟩
                · exact absurd hf hend
            have hex : ∃ cc, st.costSoFar current = some cc := by
              have hcost := inv.frontierCost (current, pr) hmem
              cases hc : st.costSoFar current
              · rw [hc] at hcost
                simp at hcost
              · exact ⟨_, rfl⟩
            exact ih _ (processNeighbors_inv h start endP pe current hcur _ _ inv1
              hex (fun n hn => hn))

lemma mem_dropLast_or_eq {l : List Pos} {b x : Pos} (hx : x ∈ l)
    (hb : l.getLast? = some b) : x ∈ l.dropLast ∨ x = b := by
  induction l with
  | nil => cases hx
  | cons a rest ih =>
      cases rest with
      | nil =>
          simp at hx hb
          exact Or.inr (hx.trans hb)
      | cons c rest2 =>
          rw [List.getLast?_cons_cons] at hb
          rcases List.mem_cons.1 hx with rfl | hx2
          · exact Or.inl (by simp [List.dropLast_cons₂])
          · rcases ih hx2 hb with hin | heq
            · exact Or.inl (by simp [List.dropLast_cons₂, hin])
            · exact Or.inr heq

lemma reconstructPath_spec (h : Hive) (start endP : Pos) (st : AStar)
    (inv : AStarInv h start endP st) (hs : (h.cellsGet start).isSome) :
    ∀ fuel p cp acc, st.costSoFar p = some cp → cp < fuel →
      (st.cameFrom p).isSome →
      chainB (p :: acc) = true →
      ∃ l, reconstructPath st.cameFrom fuel p acc = some (l ++ acc) ∧
        l ≠ [] ∧ l.head? = some start ∧ l.getLast? = some p ∧
        chainB (l ++ acc) = true ∧
        (∀ x ∈ l.dropLast, x = start ∨
          ((h.cellsGet x).isSome ∧ h.isFullAt x = false)) ∧
        (∀ x ∈ l, (h.cellsGet x).isSome) := by
  intro fuel
  induction fuel with
  | zero =>
      intro p cp acc hcp hlt
      omega
  | succ n ih =>
      intro p cp acc hcp hlt hcf hchain
      have hgrid : (h.cellsGet p).isSome := by
        rcases inv.keyOK p hcf with rfl | ⟨hg, _⟩
        · exact hs
        · exact hg
      cases ho : st.cameFrom p with
      | none => rw [ho] at hcf; simp at hcf
      | some op =>
          cases op with
          | none =>
              have hp := inv.nullOnlyStart p ho
              subst hp
              refine ⟨[p], ?_, by simp, by simp, by simp, ?_, by simp, by simp [hgrid]⟩
              · simp [reconstructPath, ho]
              · simpa using hchain
          | some q =>
              obtain ⟨hqprop, hqcf, hpadj, cp2, cq, hcp2, hcq, hlt2⟩ :=
                inv.parentProp p q ho
              have hcpeq : cp2 = cp := by
                rw [hcp] at hcp2
                injection hcp2 with h2
                exact h2.symm
              have hcqn : cq < n := by omega
              have hch2 : chainB (q :: p :: acc) = true := by
                simp only [chainB, Bool.and_eq_true, decide_eq_true_eq]
                exact ⟨hpadj, hchain⟩
              obtain ⟨l, hres, hne, hhead, hlast, hchain3, hdrop, hmem⟩ :=
                ih q cq (p :: acc) hcq hcqn hqcf hch2
              refine ⟨l ++ [p], ?_, by simp, ?_, by simp, ?_, ?_, ?_⟩
              · simp only [reconstructPath, ho]
                rw [hres, List.append_assoc, List.singleton_append]
              · obtain ⟨a, l2, rfl⟩ := List.exists_cons_of_ne_nil hne
                simpa using hhead
              · rw [List.append_assoc, List.singleton_append]
                exact hchain3
              · rw [List.dropLast_concat]
                intro x hx
                rcases mem_dropLast_or_eq hx hlast with hin | rfl
                · exact hdrop x hin
                · exact hqprop
              · intro x hx
                rcases List.mem_append.1 hx with hx | hx
                · exact hmem x hx
                · rw [List.mem_singleton] at hx
                  rw [hx]
                  exact hgrid

lemma findPathCompute_fst (h : Hive) (start endP : Pos) (pe : Bool) (path : List Pos) :
    (findPathCompute h start endP pe).1 = some path ↔
      findPathFresh h start endP pe = some path := by
  unfold findPathCompute
  cases hf : findPathFresh h start endP pe <;> simp

lemma findPathFresh_spec (h : Hive) (start endP : Pos) (pe : Bool) (path : List Pos)
    (hres : findPathFresh h start endP pe = some path) :
    path ≠ [] ∧ path.head? = some start ∧ path.getLast? = some endP ∧
    chainB path = true ∧ (∀ x ∈ path, (h.cellsGet x).isSome) ∧
    (∀ x ∈ path.dropLast, x = start ∨ h.isFullAt x = false) := by
  rw [findPathFresh] at hres
  by_cases hgrid : (h.cellsGet start).isNone ∨ (h.cellsGet endP).isNone
  · rw [if_pos hgrid] at hres
    cases hres
  rw [if_neg hgrid] at hres
  have hs : (h.cellsGet start).isSome := by
    rcases hg : h.cellsGet start with _ | c
    · exact absurd (Or.inl (by simp [hg])) hgrid
    · simp
  dsimp only at hres
  have invF := astarLoop_inv h start endP pe (astarFuel h)
    { frontier := pqEnqueue [] start 0,
      cameFrom := mapSet (fun _ => none) start none,
      costSoFar := mapSet (fun _ => none) start 0 }
    (astarInit_inv h start endP)
  set stF := astarLoop h endP pe (astarFuel h)
    { frontier := pqEnqueue [] start 0,
      cameFrom := mapSet (fun _ => none) start none,
      costSoFar := mapSet (fun _ => none) start 0 } with hstF
  by_cases hcf : (stF.cameFrom endP).isNone = true
  · rw [if_pos hcf] at hres
    cases hres
  rw [if_neg hcf] at hres
  have hcfs : (stF.cameFrom endP).isSome := by
    rcases hc : stF.cameFrom endP with _ | o
    · exact absurd (by simp [hc]) hcf
    · simp
  have hcost : ∃ c, stF.costSoFar endP = some c := by
    have := (invF.sync endP).1 hcfs
    rcases hc : stF.costSoFar endP with _ | c
    · rw [hc] at this
      simp at this
    · exact ⟨c, rfl⟩
  obtain ⟨c, hc⟩ := hcost
  rw [hc] at hres
  have hfuel : c < (some c).getD 0 + 2 := by simp
  obtain ⟨l, hrec, hne, hhead, hlast, hchain, hdrop, hmem⟩ :=
    reconstructPath_spec h start endP stF invF hs ((some c).getD 0 + 2) endP c []
      hc hfuel hcfs (by rfl)
  rw [hrec, List.append_nil] at hres
  injection hres with hres
  subst hres
  refine ⟨hne, hhead, hlast, by simpa [List.append_nil] using hchain, hmem, ?_⟩
  intro x hx
  rcases hdrop x hx with hl | ⟨_, hr⟩
  · exact Or.inl hl
  · exact Or.inr hr

lemma validatePathGo_spec (h : Hive) :
    ∀ path, validatePathGo h path = true →
      (∀ x ∈ path, (h.cellsGet x).isSome) ∧
      (∀ x ∈ path.dropLast, h.isFullAt x = false) := by
  intro path
  induction path with
  | nil => exact fun _ => ⟨by simp, by simp⟩
  | cons a rest ih =>
      intro hv
      cases rest with
      | nil =>
          simp only [validatePathGo] at hv
          refine ⟨?_, by simp⟩
          intro x hx
          simp only [List.mem_singleton] at hx
          rw [hx]
          exact hv
      | cons b rest2 =>
          simp only [validatePathGo] at hv
          cases hcell : h.cellsGet a with
          | none =>
              rw [hcell] at hv
              cases hv
          | some c =>
              rw [hcell] at hv
              rw [Bool.and_eq_true, Bool.not_eq_true'] at hv
              obtain ⟨hfull, hrest⟩ := hv
              have ihr := ih hrest
              refine ⟨?_, ?_⟩
              · intro x hx
                rcases List.mem_cons.1 hx with rfl | hx2
                · simp [hcell]
                · exact ihr.1 x hx2
              · rw [List.dropLast_cons₂]
                intro x hx
                rcases List.mem_cons.1 hx with rfl | hx2
                · simp [Hive.isFullAt, hcell, hfull]
                · exact ihr.2 x hx2

lemma validatePath_spec (h : Hive) (path : List Pos)
    (hv : validatePath h path = true) :
    path ≠ [] ∧ (∀ x ∈ path, (h.cellsGet x).isSome) ∧
    (∀ x ∈ path.dropLast, h.isFullAt x = false) := by
  rw [validatePath, Bool.and_eq_true] at hv
  obtain ⟨hne, hgo⟩ := hv
  have := validatePathGo_spec h path hgo
  exact ⟨by simpa using hne, this.1, this.2⟩

lemma cacheCore_mem (c1 : List ((Pos × Pos) × List Pos)) (k : Pos × Pos)
    (v : List Pos) (e : (Pos × Pos) × List Pos)
    (he : e ∈ (if (List.find? (fun x => decide (x.1 = k)) c1).isSome then
      c1.map (fun x => if x.1 = k then (k, v) else x) else c1 ++ [(k, v)])) :
    e = (k, v) ∨ e ∈ c1 := by
  split_ifs at he with hfind
  · rcases List.mem_map.1 he with ⟨e0, he0, heq⟩
    by_cases hk : e0.1 = k
    · rw [if_pos hk] at heq
      exact Or.inl heq.symm
    · rw [if_neg hk] at heq
      exact Or.inr (heq ▸ he0)
  · rcases List.mem_append.1 he with hx | hx
    · exact Or.inr hx
    · exact Or.inl (by simpa using hx)

lemma cacheSet_mem {c : List ((Pos × Pos) × List Pos)} {m : Nat} {k : Pos × Pos}
    {v : List Pos} {e : (Pos × Pos) × List Pos} (he : e ∈ cacheSet c m k v) :
    e = (k, v) ∨ e ∈ c := by
  simp only [cacheSet] at he
  rcases cacheCore_mem _ k v e he with h1 | h1
  · exact Or.inl h1
  · split_ifs at h1 with hm
    · exact Or.inr (List.mem_of_mem_tail h1)
    · exact Or.inr h1

/-- C1 (amended): every path findPath returns contains no full cell except
the final destination or the starting cell itself (the fresh A* search
admits a full start, since the start is never entered - see the
counterexample; cache-served paths are revalidated, which additionally
rejects a full start); and a cached path that fails revalidation against
the current grid is never served: findPath falls through to the fresh
computation, so the result is either a cached path that passed
validatePath or the freshly computed A* path. -/
theorem C1_findPath_no_full (h : Hive) (start endP : Pos) (pe : Bool) :
    (∀ path, (findPath h start endP pe).1 = some path →
      ∀ x ∈ path.dropLast, x = start ∨ h.isFullAt x = false) ∧
    (∀ cached, cacheGet h.cache (start, endP) = some cached →
      validatePath h cached = false →
      findPath h start endP pe = findPathCompute h start endP pe) ∧
    (∀ path, (findPath h start endP pe).1 = some path →
      (∃ cached, cacheGet h.cache (start, endP) = some cached ∧
        validatePath h cached = true ∧ path = cached) ∨
      findPathFresh h start endP pe = some path) := by
  refine ⟨?_, ?_, ?_⟩
  · intro path hres x hx
    rw [findPath] at hres
    cases hcg : cacheGet h.cache (start, endP) with
    | none =>
        rw [hcg] at hres
        have hfresh := (findPathCompute_fst h start endP pe path).1 hres
        rcases (findPathFresh_spec h start endP pe path hfresh).2.2.2.2.2 x hx with hl | hr
        · exact Or.inl hl
        · exact Or.inr hr
    | some cached =>
        rw [hcg] at hres
        dsimp only at hres
        by_cases hval : validatePath h cached = true
        · rw [if_pos hval] at hres
          injection hres with hres
          have hspec := (validatePath_spec h cached hval).2.2
          rw [hres] at hspec
          exact Or.inr (hspec x hx)
        · rw [if_neg hval] at hres
          have hfresh := (findPathCompute_fst h start endP pe path).1 hres
          rcases (findPathFresh_spec h start endP pe path hfresh).2.2.2.2.2 x hx with hl | hr
          · exact Or.inl hl
          · exact Or.inr hr
  · intro cached hcg hval
    rw [findPath, hcg]
    dsimp only
    rw [if_neg (by simp [hval])]
  · intro path hres
    rw [findPath] at hres
    cases hcg : cacheGet h.cache (start, endP) with
    | none =>
        rw [hcg] at hres
        exact Or.inr ((findPathCompute_fst h start endP pe path).1 hres)
    | some cached =>
        rw [hcg] at hres
        dsimp only at hres
        by_cases hval : validatePath h cached = true
        · rw [if_pos hval] at hres
          injection hres with hres
          exact Or.inl ⟨cached, rfl, hval, hres.symm⟩
        · rw [if_neg hval] at hres
          exact Or.inr ((findPathCompute_fst h start endP pe path).1 hres)

/-- C1 counterexample: on a two-cell grid with a full start cell and an
empty cache, findPath freshly computes and returns the path
[(0,0), (1,0)] whose non-destination element (0,0) is full - the claim
that a returned path never crosses a full cell except as the final
destination fails at the starting cell. -/
theorem C1_counterexample :
    (findPath pfHive ⟨0, 0⟩ ⟨1, 0⟩ false).1 = some [⟨0, 0⟩, ⟨1, 0⟩] ∧
    pfHive.isFullAt ⟨0, 0⟩ = true ∧
    (⟨0, 0⟩ : Pos) ≠ ⟨1, 0⟩ ∧
    cacheGet pfHive.cache (⟨0, 0⟩, ⟨1, 0⟩) = none := by decide

/-- C1 witness: on the open two-cell hive, findPath returns the path
[(0,0), (1,0)] and the theorem instantiates at its non-final element. -/
theorem C1_findPath_no_full_witness :
    (⟨0, 0⟩ : Pos) = ⟨0, 0⟩ ∨ openHive.isFullAt ⟨0, 0⟩ = false :=
  (C1_findPath_no_full openHive ⟨0, 0⟩ ⟨1, 0⟩ false).1 [⟨0, 0⟩, ⟨1, 0⟩]
    (by decide) ⟨0, 0⟩ (by decide)

/-- C10: assuming every cache entry is well-formed for its key (the
invariant findPath itself maintains, proved in the second conjunct), every
path findPath returns for in-grid endpoints - freshly computed or served
from the cache - is well-formed: non-empty, starting at start, ending at
end, entirely on the grid, with consecutive elements hex-adjacent; and the
updated hive's cache again contains only well-formed entries. -/
theorem C10_findPath_wellformed (h : Hive) (start endP : Pos) (pe : Bool)
    (hwf : cacheWF h) (hs : h.inGrid start = true) (he : h.inGrid endP = true) :
    (∀ path, (findPath h start endP pe).1 = some path →
      wellFormedPath h start endP path) ∧
    cacheWF (findPath h start endP pe).2 := by
  have hfreshWF : ∀ path, findPathFresh h start endP pe = some path →
      wellFormedPath h start endP path := by
    intro path hfresh
    obtain ⟨h1, h2, h3, h4, h5, _⟩ := findPathFresh_spec h start endP pe path hfresh
    exact ⟨h1, h2, h3, h5, h4⟩
  have hcomputeWF : cacheWF (findPathCompute h start endP pe).2 := by
    rw [findPathCompute]
    cases hf : findPathFresh h start endP pe with
    | none => exact hwf
    | some path =>
        dsimp only
        intro e hemem
        rcases cacheSet_mem hemem with rfl | hold
        · exact hfreshWF path hf
        · exact hwf e hold
  constructor
  · intro path hres
    rw [findPath] at hres
    cases hcg : cacheGet h.cache (start, endP) with
    | none =>
        rw [hcg] at hres
        exact hfreshWF path ((findPathCompute_fst h start endP pe path).1 hres)
    | some cached =>
        rw [hcg] at hres
        dsimp only at hres
        by_cases hval : validatePath h cached = true
        · rw [if_pos hval] at hres
          injection hres with hres
          subst hres
          rcases hfind : List.find? (fun x => decide (x.1 = (start, endP))) h.cache with
            _ | e0
          · rw [cacheGet, hfind] at hcg
            cases hcg
          · have hmem := List.mem_of_find?_eq_some hfind
            have hkey : e0.1 = (start, endP) := by
              have := List.find?_some hfind
              simpa using this
            have hv : e0.2 = cached := by
              rw [cacheGet, hfind] at hcg
              injection hcg
            have := hwf e0 hmem
            rw [hkey, hv] at this
            exact this
        · rw [if_neg hval] at hres
          exact hfreshWF path ((findPathCompute_fst h start endP pe path).1 hres)
  · rw [findPath]
    cases hcg : cacheGet h.cache (start, endP) with
    | none => exact hcomputeWF
    | some cached =>
        dsimp only
        by_cases hval : validatePath h cached = true
        · rw [if_pos hval]
          exact hwf
        · rw [if_neg hval]
          exact hcomputeWF

/-- C10 witness: on the open two-cell hive with its empty cache, findPath
returns [(0,0), (1,0)], which the theorem certifies well-formed. -/
theorem C10_findPath_wellformed_witness :
    wellFormedPath openHive ⟨0, 0⟩ ⟨1, 0⟩ [⟨0, 0⟩, ⟨1, 0⟩] :=
  (C10_findPath_wellformed openHive ⟨0, 0⟩ ⟨1, 0⟩ false
    (by intro e hemem; simp [openHive, pfHive] at hemem)
    (by decide) (by decide)).1 [⟨0, 0⟩, ⟨1, 0⟩] (by decide)

lemma insertByKey_ne_nil (key : Cell → Int) (c : Cell) (l : List Cell) :
    insertByKey key c l ≠ [] := by
  cases l with
  | nil => simp [insertByKey]
  | cons d t =>
      unfold insertByKey
      split_ifs <;> simp

lemma insertByKey_mem (key : Cell → Int) (c : Cell) (l : List Cell) (x : Cell) :
    x ∈ insertByKey key c l ↔ x = c ∨ x ∈ l := by
  induction l with
  | nil => simp [insertByKey]
  | cons d t ih =>
      unfold insertByKey
      split_ifs with hlt
      · simp
      · simp [ih]
        tauto

lemma sortByKey_eq_nil (key : Cell → Int) (l : List Cell)
    (hs : sortByKey key l = []) : l = [] := by
  cases l with
  | nil => rfl
  | cons c t => exact absurd hs (insertByKey_ne_nil key c (sortByKey key t))

lemma sortByKey_mem (key : Cell → Int) (l : List Cell) (x : Cell) :
    x ∈ sortByKey key l ↔ x ∈ l := by
  induction l with
  | nil => simp [sortByKey]
  | cons c t ih =>
      simp only [sortByKey]
      rw [insertByKey_mem]
      simp [ih]

lemma insertByKey_min (key : Cell → Int) (c : Cell) (l : List Cell)
    (hmin : ∀ e t, l = e :: t → ∀ x ∈ l, key e ≤ key x) :
    ∀ d t, insertByKey key c l = d :: t →
      (d = c ∨ d ∈ l) ∧ key d ≤ key c ∧ ∀ x ∈ l, key d ≤ key x := by
  cases l with
  | nil =>
      intro d t heq
      simp [insertByKey] at heq
      refine ⟨Or.inl heq.1.symm, le_of_eq (congrArg key heq.1.symm), ?_⟩
      intro x hx
      simp at hx
  | cons e t0 =>
      intro d t heq
      unfold insertByKey at heq
      split_ifs at heq with hlt
      · injection heq with h1 h2
        subst h1
        exact ⟨Or.inl rfl, le_refl _,
          fun x hx => le_trans (le_of_lt hlt) (hmin e t0 rfl x hx)⟩
      · injection heq with h1 h2
        subst h1
        exact ⟨Or.inr (List.mem_cons_self _ _), le_of_not_lt hlt, hmin e t0 rfl⟩

lemma sortByKey_min (key : Cell → Int) (l : List Cell) :
    ∀ d t, sortByKey key l = d :: t → d ∈ l ∧ ∀ x ∈ l, key d ≤ key x := by
  induction l with
  | nil => intro d t heq; simp [sortByKey] at heq
  | cons c t0 ih =>
      intro d t heq
      simp only [sortByKey] at heq
      have hmin : ∀ e tt, sortByKey key t0 = e :: tt →
          ∀ x ∈ sortByKey key t0, key e ≤ key x := by
        intro e tt hs x hx
        exact (ih e tt hs).2 x ((sortByKey_mem key t0 x).mp hx)
      obtain ⟨hd, hdc, hall⟩ := insertByKey_min key c (sortByKey key t0) hmin d t heq
      constructor
      · rcases hd with hd | hd
        · exact hd ▸ List.mem_cons_self _ _
        · exact List.mem_cons_of_mem _ ((sortByKey_mem key t0 d).mp hd)
      · intro x hx
        rcases List.mem_cons.mp hx with hx | hx
        · exact hx ▸ hdc
        · exact hall x ((sortByKey_mem key t0 x).mpr hx)

/-- C2: with no living Queen but bees remaining, emergency queen creation
designates a young larva (fed or hungry, under half developed) whose
squared distance to the grid centre is minimal when such a larva exists;
with no young larva it designates eggCells[0], the first egg in grid
iteration order (the spec says the oldest egg - see the counterexample);
with neither the hive is unchanged; and emergence on the designated cell
materialises a Queen-typed bee appended to the roster, makes it the
hive's queen, clears the designation, and empties the cell. -/
theorem C2_emergency_queen (h : Hive) (hq : h.queen = none) (hb : h.bees ≠ []) :
    ((h.gridCells.filter isYoungLarva ≠ []) →
      ∃ c, c ∈ h.gridCells ∧ isYoungLarva c = true ∧
        (createEmergencyQueen h).emergencyQueenCell = some ⟨c.q, c.r⟩ ∧
        ∀ d ∈ h.gridCells, isYoungLarva d = true →
          centerDistKey h.cfg c ≤ centerDistKey h.cfg d) ∧
    (h.gridCells.filter isYoungLarva = [] →
      ∀ e rest, h.gridCells.filter (fun c => c.state = .egg) = e :: rest →
        (createEmergencyQueen h).emergencyQueenCell = some ⟨e.q, e.r⟩) ∧
    (h.gridCells.filter isYoungLarva = [] →
      h.gridCells.filter (fun c => c.state = .egg) = [] →
      createEmergencyQueen h = h) ∧
    (∀ p, h.emergencyQueenCell = some p →
      ∃ qb, (emergeBee h p).queen = some qb ∧ qb.type = .queen ∧
        (emergeBee h p).bees = h.bees ++ [qb] ∧
        (emergeBee h p).emergencyQueenCell = none ∧
        ((emergeBee h p).cellAt p).state = .empty) := by
  refine ⟨?_, ?_, ?_, ?_⟩
  · intro hL
    have hne : (h.gridCells.filter isYoungLarva).isEmpty = false := by
      cases hF : h.gridCells.filter isYoungLarva with
      | nil => exact absurd hF hL
      | cons a t => rfl
    cases hs : sortByKey (centerDistKey h.cfg) (h.gridCells.filter isYoungLarva) with
    | nil => exact absurd (sortByKey_eq_nil _ _ hs) hL
    | cons sel t =>
        obtain ⟨hmem, hmin⟩ := sortByKey_min (centerDistKey h.cfg) _ sel t hs
        rw [List.mem_filter] at hmem
        refine ⟨sel, hmem.1, hmem.2, ?_, ?_⟩
        · simp [createEmergencyQueen, hne, hs]
        · intro d hd hyd
          exact hmin d (List.mem_filter.mpr ⟨hd, hyd⟩)
  · intro hL e rest hE
    simp [createEmergencyQueen, hL, hE]
  · intro hL hE
    simp [createEmergencyQueen, hL, hE]
  · intro p hp
    refine ⟨mkBee h.cfg .queen p.q p.r, ?_, rfl, ?_, ?_, ?_⟩ <;>
      simp [emergeBee, hp]

/-- With two eggs on the grid and no young larva, the designate is the
first egg in grid order, (0,0), although the older egg sits at (1,0). -/
theorem C2_counterexample :
    egg2Hive.queen = none ∧ egg2Hive.bees ≠ [] ∧
    (egg2Hive.cellAt ⟨0, 0⟩).state = .egg ∧
    (egg2Hive.cellAt ⟨1, 0⟩).state = .egg ∧
    (egg2Hive.cellAt ⟨0, 0⟩).developmentTime <
      (egg2Hive.cellAt ⟨1, 0⟩).developmentTime ∧
    egg2Hive.gridCells.filter isYoungLarva = [] ∧
    (createEmergencyQueen egg2Hive).emergencyQueenCell = some ⟨0, 0⟩ ∧
    (⟨0, 0⟩ : Pos) ≠ ⟨1, 0⟩ := by decide

theorem C2_emergency_queen_witness :
    (emergeBee eqHive ⟨1, 0⟩).emergencyQueenCell = none ∧
    (emergeBee eqHive ⟨1, 0⟩).queen.map Bee.type = some BeeType.queen := by
  obtain ⟨qb, h1, h2, h3, h4, h5⟩ :=
    (C2_emergency_queen eqHive (by decide) (by decide)).2.2.2 ⟨1, 0⟩ (by decide)
  exact ⟨h4, by rw [h1]; simp [h2]⟩

lemma length_filter_not_add {α : Type} (p : α → Bool) (l : List α) :
    (l.filter fun x => !(p x)).length + (l.filter p).length = l.length := by
  induction l with
  | nil => rfl
  | cons a t ih => cases hp : p a <;> simp [List.filter_cons, hp] <;> omega

/-- C9: the statistics getStats returns satisfy
beesInside + beesOutside = population and
workers + (1 if a queen is present else 0) = population; the sole
hypothesis reflects the data model, in which the queen field is a
reference into the bee list, so an empty hive has no queen. -/
theorem C9_getStats_balance (h : Hive) (hq : h.bees = [] → h.queen = none) :
    (getStats h).beesInside + (getStats h).beesOutside = (getStats h).population ∧
    (getStats h).workers + (if h.queen.isSome then 1 else 0) =
      (getStats h).population := by
  by_cases hb : h.bees.isEmpty = true
  · have hbe : h.bees = [] := by simpa using hb
    have hqn := hq hbe
    simp [getStats, hb, hqn]
  · have hbne : h.bees ≠ [] := by simpa using hb
    have hpop : 0 < h.bees.length := List.length_pos.mpr hbne
    have hio := length_filter_not_add Bee.isOutsideHive h.bees
    cases hqo : h.queen with
    | none =>
        simp only [getStats, hb, Bool.false_eq_true, if_false, hqo, Option.isSome_none]
        constructor
        · split_ifs <;> omega
        · split_ifs <;> omega
    | some qb =>
        simp only [getStats, hb, Bool.false_eq_true, if_false, hqo, Option.isSome_some]
        constructor
        · split_ifs <;> omega
        · split_ifs <;> omega

theorem C9_getStats_balance_witness :
    (getStats beeHive).beesInside + (getStats beeHive).beesOutside =
      (getStats beeHive).population ∧
    (getStats beeHive).workers + (if beeHive.queen.isSome then 1 else 0) =
      (getStats beeHive).population :=
  C9_getStats_balance beeHive (by decide)

/-- C7 (amended): Hive.update with an invalid deltaTime (falsy - which
covers 0 and NaN -, non-positive, or non-finite) or with a currentDate
that is null, undefined or not a Date instance returns with the hive
untouched.  An ill-formed Date *instance* (Invalid Date, carrying a NaN
timestamp) is not rejected: it passes the instanceof check and the tick
proceeds - see the counterexample. -/
theorem C7_update_validation (env : Env) (dt : JsNum) (d : JsDate) (h : Hive)
    (hinv : dt.falsy = true ∨ dt.le0 = true ∨ dt.isFiniteNum = false ∨
      d = JsDate.nullish) :
    Hive.update env dt d h = h := by
  unfold Hive.update
  rcases hinv with h1 | h1 | h1 | h1
  · simp [h1]
  · simp [h1]
  · simp [h1]
  · subst h1
    simp

/-- An Invalid Date passes the currentDate validation: the tick advances
the simulation clock, so the hive state is not left unchanged. -/
theorem C7_counterexample :
    (Hive.update envZero (.num 1) JsDate.invalid pfHive).simulationTime = 1 ∧
    pfHive.simulationTime = 0 ∧
    Hive.update envZero (.num 1) JsDate.invalid pfHive ≠ pfHive := by
  have hst : (Hive.update envZero (.num 1) JsDate.invalid pfHive).simulationTime = 1 := by
    simp +decide [Hive.update, checkDayRollover, JsNum.falsy, JsNum.le0,
      JsNum.isFiniteNum, JsDate.getDateField, JsNum.strictNeq, pfHive]
  refine ⟨hst, rfl, fun heq => ?_⟩
  have h2 := congrArg Hive.simulationTime heq
  rw [hst, show pfHive.simulationTime = 0 from rfl] at h2
  exact absurd h2 (by norm_num)

theorem C7_update_validation_witness :
    Hive.update envZero JsNum.nan (JsDate.valid 1 0 12) pfHive = pfHive :=
  C7_update_validation envZero .nan (.valid 1 0 12) pfHive (Or.inl (by decide))

lemma mem_gridPositions (cfg : Config) (p : Pos) :
    p ∈ gridPositions cfg ↔ inGridCfg cfg p = true := by
  obtain ⟨q, r⟩ := p
  rw [show (inGridCfg cfg ⟨q, r⟩ = true) ↔
      (0 ≤ q ∧ q < (cfg.columns : Int) ∧ 0 ≤ r ∧ r < (cfg.rows : Int)) by
    simp [inGridCfg]]
  constructor
  · intro hmem
    obtain ⟨row, hrow, hmap⟩ := List.mem_flatMap.mp hmem
    obtain ⟨col, hcol, heq⟩ := List.mem_map.mp hmap
    rw [List.mem_range] at hrow hcol
    simp only [Pos.mk.injEq, Int.ofNat_eq_natCast] at heq
    obtain ⟨h1, h2⟩ := heq
    subst h1
    subst h2
    exact ⟨by omega, by omega, by omega, by omega⟩
  · rintro ⟨hq0, hqc, hr0, hrr⟩
    apply List.mem_flatMap.mpr
    refine ⟨r.toNat, List.mem_range.mpr (by omega), ?_⟩
    apply List.mem_map.mpr
    refine ⟨q.toNat, List.mem_range.mpr (by omega), ?_⟩
    simp only [Pos.mk.injEq, Int.ofNat_eq_natCast]
    constructor <;> omega

lemma gridPositions_nodup (cfg : Config) : (gridPositions cfg).Nodup := by
  unfold gridPositions
  have haux : ∀ rs : List Nat, rs.Nodup →
      (rs.flatMap fun row => (List.range cfg.columns).map
        fun col => (⟨Int.ofNat col, Int.ofNat row⟩ : Pos)).Nodup := by
    intro rs
    induction rs with
    | nil => intro hnd; simp
    | cons r t ih =>
        intro hnd
        rw [List.flatMap_cons]
        apply List.Nodup.append
        · refine List.Nodup.map ?_ (List.nodup_range _)
          intro a b hab
          simp only [Pos.mk.injEq, Int.ofNat_eq_natCast] at hab
          omega
        · exact ih (List.Nodup.of_cons hnd)
        · intro x hx1 hx2
          obtain ⟨c, hc, rfl⟩ := List.mem_map.mp hx1
          obtain ⟨r2, hr2, hmap2⟩ := List.mem_flatMap.mp hx2
          obtain ⟨c2, hc2, heq⟩ := List.mem_map.mp hmap2
          simp only [Pos.mk.injEq, Int.ofNat_eq_natCast] at heq
          have hre : r2 = r := by omega
          exact (List.nodup_cons.mp hnd).1 (hre ▸ hr2)
  exact haux _ (List.nodup_range _)

lemma importCells_skip (cfg : Config) (data : List CellData) (init : Pos → Cell)
    (p : Pos) (hnone : ∀ cd ∈ data, (⟨cd.q, cd.r⟩ : Pos) ≠ p) :
    data.foldl (importCellsStep cfg) init p = init p := by
  induction data generalizing init with
  | nil => rfl
  | cons cd t ih =>
      rw [List.foldl_cons,
        ih _ (fun x hx => hnone x (List.mem_cons_of_mem _ hx))]
      unfold importCellsStep
      split_ifs with hg
      · exact if_neg (fun h => hnone cd (List.mem_cons_self _ _) h.symm)
      · rfl

lemma importCellsStep_at (cfg : Config) (m : Pos → Cell) (cd : CellData) (p : Pos)
    (hp : (⟨cd.q, cd.r⟩ : Pos) = p) (hgrid : inGridCfg cfg p = true) :
    importCellsStep cfg m cd p = applyCellData (m p) cd := by
  unfold importCellsStep
  rw [hp, if_pos hgrid]
  show (if p = p then applyCellData (m p) cd else m p) = applyCellData (m p) cd
  rw [if_pos rfl]

lemma importCells_hit (cfg : Config) (pre post : List CellData) (cd : CellData)
    (init : Pos → Cell) (p : Pos)
    (hp : (⟨cd.q, cd.r⟩ : Pos) = p) (hgrid : inGridCfg cfg p = true)
    (hpre : ∀ x ∈ pre, (⟨x.q, x.r⟩ : Pos) ≠ p)
    (hpost : ∀ x ∈ post, (⟨x.q, x.r⟩ : Pos) ≠ p) :
    (pre ++ cd :: post).foldl (importCellsStep cfg) init p =
      applyCellData (init p) cd := by
  rw [List.foldl_append, List.foldl_cons,
    importCells_skip cfg post _ p hpost,
    importCellsStep_at cfg _ cd p hp hgrid,
    importCells_skip cfg pre init p hpre]

lemma importBees_fold (bds : List BeeData) :
    ∀ hh : Hive,
      (bds.foldl importBeesStep hh).bees = hh.bees ++ bds.map (restoreBee hh.cfg) ∧
      (bds.foldl importBeesStep hh).cfg = hh.cfg ∧
      (bds.foldl importBeesStep hh).cellAt = hh.cellAt ∧
      (bds.foldl importBeesStep hh).simulationTime = hh.simulationTime ∧
      (bds.foldl importBeesStep hh).currentDate = hh.currentDate := by
  induction bds with
  | nil => intro hh; simp
  | cons bd t ih =>
      intro hh
      rw [List.foldl_cons]
      obtain ⟨h1, h2, h3, h4, h5⟩ := ih (importBeesStep hh bd)
      refine ⟨?_, ?_, ?_, ?_, ?_⟩
      · rw [h1]
        simp [importBeesStep]
      · rw [h2]; rfl
      · rw [h3]; rfl
      · rw [h4]; rfl
      · rw [h5]; rfl

lemma importCells_eval (cfg : Config) (grid : Pos → Cell)
    (hwf : ∀ p ∈ gridPositions cfg, (grid p).q = p.q ∧ (grid p).r = p.r)
    (p : Pos) (hp : p ∈ gridPositions cfg) :
    (((gridPositions cfg).filter fun x => (grid x).serializeWorthy).map
        (fun x => (grid x).persisted)).foldl (importCellsStep cfg)
      (fun pp => Cell.mkFresh pp.q pp.r) p =
      if (grid p).serializeWorthy = true then
        applyCellData (Cell.mkFresh p.q p.r) ((grid p).persisted)
      else Cell.mkFresh p.q p.r := by
  have hkey : ∀ x ∈ (gridPositions cfg).filter
      (fun x => (grid x).serializeWorthy),
      (⟨(grid x).q, (grid x).r⟩ : Pos) = x := by
    intro x hx
    obtain ⟨hq, hr⟩ := hwf x (List.mem_filter.mp hx).1
    obtain ⟨xq, xr⟩ := x
    simp [hq, hr]
  split_ifs with hw
  · have hpP : p ∈ (gridPositions cfg).filter
        (fun x => (grid x).serializeWorthy) := List.mem_filter.mpr ⟨hp, hw⟩
    obtain ⟨l1, l2, hsplit⟩ := List.append_of_mem hpP
    have hnd : (l1 ++ p :: l2).Nodup :=
      hsplit ▸ ((gridPositions_nodup cfg).filter _)
    rw [List.nodup_append] at hnd
    have hpl1 : p ∉ l1 := fun hm => hnd.2.2 hm (List.mem_cons_self _ _)
    have hpl2 : p ∉ l2 := (List.nodup_cons.mp hnd.2.1).1
    rw [hsplit, List.map_append, List.map_cons]
    apply importCells_hit
    · exact hkey p hpP
    · exact (mem_gridPositions cfg p).mp hp
    · intro x hx
      obtain ⟨y, hy, rfl⟩ := List.mem_map.mp hx
      have hyP : y ∈ (gridPositions cfg).filter
          (fun x => (grid x).serializeWorthy) := by
        rw [hsplit]; exact List.mem_append_left _ hy
      show (⟨(grid y).q, (grid y).r⟩ : Pos) ≠ p
      rw [hkey y hyP]
      exact fun hE => hpl1 (hE ▸ hy)
    · intro x hx
      obtain ⟨y, hy, rfl⟩ := List.mem_map.mp hx
      have hyP : y ∈ (gridPositions cfg).filter
          (fun x => (grid x).serializeWorthy) := by
        rw [hsplit]
        exact List.mem_append_right _ (List.mem_cons_of_mem _ hy)
      show (⟨(grid y).q, (grid y).r⟩ : Pos) ≠ p
      rw [hkey y hyP]
      exact fun hE => hpl2 (hE ▸ hy)
  · apply importCells_skip
    intro x hx
    obtain ⟨y, hy, rfl⟩ := List.mem_map.mp hx
    show (⟨(grid y).q, (grid y).r⟩ : Pos) ≠ p
    rw [hkey y hy]
    intro hE
    exact hw (hE ▸ (List.mem_filter.mp hy).2)

/-- C3 (amended): for hives whose cells carry their own coordinates and
whose default cells (the empty, clean, corpse-free ones the save filter
omits) hold zero content and development fields - the well-formedness the
Cell constructor establishes and every transition preserves - exporting
the persistence snapshot and importing it via importData (which takes the
config from the snapshot itself) reproduces the persisted projection of
every grid cell, the simulation clock, the date, the daily summaries, and
the bee roster projected to the serialised fields (type, position, age,
task and the four recorded cargo flags).  The hasDeadBee cargo flag is
not serialised and resets to false on import - see the counterexample. -/
theorem C3_save_import_roundtrip (h fresh0 : Hive)
    (hdate : h.currentDate ≠ JsDate.nullish)
    (hwf : ∀ p ∈ gridPositions h.cfg,
      (h.cellAt p).q = p.q ∧ (h.cellAt p).r = p.r ∧
      ((h.cellAt p).serializeWorthy = false →
        (h.cellAt p).contentAmount = 0 ∧ (h.cellAt p).developmentTime = 0 ∧
        (h.cellAt p).maxDevelopmentTime = 0)) :
    (∀ p ∈ gridPositions h.cfg,
      ((importData fresh0 (save h)).cellAt p).persisted =
        (h.cellAt p).persisted) ∧
    (importData fresh0 (save h)).bees.map Bee.serialized =
      h.bees.map Bee.serialized ∧
    (importData fresh0 (save h)).simulationTime = h.simulationTime ∧
    (importData fresh0 (save h)).currentDate = h.currentDate ∧
    (importData fresh0 (save h)).dailySummaries = h.dailySummaries := by
  have hcells_eq : (save h).cells =
      ((gridPositions h.cfg).filter fun x => (h.cellAt x).serializeWorthy).map
        (fun x => (h.cellAt x).persisted) := by
    show (h.gridCells.filter Cell.serializeWorthy).map Cell.persisted = _
    unfold Hive.gridCells
    rw [List.filter_map, List.map_map]
    rfl
  have hcell : ∀ pp, (importData fresh0 (save h)).cellAt pp =
      ((save h).cells.foldl (importCellsStep h.cfg)
        (fun x => Cell.mkFresh x.q x.r)) pp := by
    intro pp
    unfold importData
    dsimp only
    rw [(importBees_fold _ _).2.2.1]
    rfl
  refine ⟨?_, ?_, ?_, ?_, ?_⟩
  · intro p hpmem
    rw [hcell p, hcells_eq,
      importCells_eval h.cfg h.cellAt
        (fun x hx => ⟨(hwf x hx).1, (hwf x hx).2.1⟩) p hpmem]
    obtain ⟨hq, hr, hz⟩ := hwf p hpmem
    split_ifs with hw
    · simp [applyCellData, Cell.persisted, Cell.mkFresh, hq, hr]
    · have hwf2 : (h.cellAt p).serializeWorthy = false := by
        revert hw
        cases (h.cellAt p).serializeWorthy <;> simp
      obtain ⟨hc0, hd0, hm0⟩ := hz hwf2
      have hsw := hwf2
      simp only [Cell.serializeWorthy, Cell.isEmpty, Cell.hasDeadBee,
        Bool.or_eq_false_iff, Bool.not_eq_false', decide_eq_true_eq,
        decide_eq_false_iff_not] at hsw
      obtain ⟨⟨hse, hsd⟩, hsb⟩ := hsw
      have hdbc : (h.cellAt p).deadBeeCount = 0 := by omega
      simp [Cell.persisted, Cell.mkFresh, hq, hr, hse, hsd, hdbc, hc0, hd0, hm0]
  · have hbees : (importData fresh0 (save h)).bees =
        ((save h).bees).map (restoreBee h.cfg) := by
      unfold importData
      dsimp only
      rw [(importBees_fold _ _).1]
      rfl
    rw [hbees]
    show ((h.bees.map Bee.serialized).map (restoreBee h.cfg)).map Bee.serialized
      = h.bees.map Bee.serialized
    rw [List.map_map, List.map_map]
    exact List.map_congr_left (fun a _ => rfl)
  · unfold importData
    dsimp only
    rw [(importBees_fold _ _).2.2.2.1]
    rfl
  · unfold importData
    dsimp only
    rw [(importBees_fold _ _).2.2.2.2]
    show (if h.currentDate = JsDate.nullish then fresh0.currentDate
      else h.currentDate) = h.currentDate
    rw [if_neg hdate]
  · rfl

/-- A worker carrying a dead bee round-trips with every serialised field
intact, but the unserialised hasDeadBee flag resets to false, so the
restored roster is not the original one. -/
theorem C3_counterexample :
    deadCarrierHive.bees.map Bee.hasDeadBee = [true] ∧
    (importData deadCarrierHive (save deadCarrierHive)).bees.map
      Bee.hasDeadBee = [false] ∧
    (importData deadCarrierHive (save deadCarrierHive)).bees.map
      Bee.serialized = deadCarrierHive.bees.map Bee.serialized := by
  refine ⟨rfl, ?_, ?_⟩ <;> rfl

theorem C3_save_import_roundtrip_witness :
    ((importData wfHive (save wfHive)).cellAt ⟨0, 0⟩).persisted =
      (wfHive.cellAt ⟨0, 0⟩).persisted ∧
    (importData wfHive (save wfHive)).bees.map Bee.serialized =
      wfHive.bees.map Bee.serialized := by
  obtain ⟨hc, hbees, _⟩ :=
    C3_save_import_roundtrip wfHive wfHive (by decide) (by decide)
  exact ⟨hc ⟨0, 0⟩ (by decide), hbees⟩

end BeeHive
